import Mathlib

/-!
# Verification of the onChain-Explorer query-answering pipeline

This file gives a shallow embedding, in Lean 4, of the core of the
`onChain-Explorer` server (`server/app/services/nlsql.py`,
`server/app/services/retrieval.py`, `server/app/services/orchestration.py`,
`server/app/api/endpoints.py`) and proves or refutes the frozen claims
C1-C10 about it.

Modelling conventions:

* Python strings are modelled as `List Char`; `str.upper()` / `str.lower()`
  are modelled per-character with `Char.toUpper` / `Char.toLower`
  (the source only manipulates ASCII SQL text and ASCII keyword lexicons);
  `str.strip()` is modelled with the ASCII whitespace set.
* Python float scores (`1.0 / (k + i + 1)`, the `0.015` display threshold)
  are modelled as exact rationals `ℚ`; the algorithms only add, compare and
  sort these quantities.
* Python `dict` (insertion ordered, assignment replaces in place) is
  modelled as an association list with `dictInsert` / `dictLookup` /
  `dictModify` below.
* Fallible effects (LLM call, database queries, embedding provider,
  Cohere reranking) are modelled as `Except` values passed in as oracle
  arguments; a `try/except` block becomes a `match` on the oracle.
-/

/-! ## Generic string (List Char) utilities -/

/-- Python's `c.upper()` applied characterwise: `str.upper()` of a string. -/
def upperL (s : List Char) : List Char := s.map Char.toUpper

/-- Python's `str.lower()` of a string, applied characterwise. -/
def lowerL (s : List Char) : List Char := s.map Char.toLower

/-- Python's substring test `pat in s`. -/
def containsSub (pat : List Char) : List Char → Bool
  | [] => pat.isEmpty
  | c :: rest => pat.isPrefixOf (c :: rest) || containsSub pat rest

/-- ASCII whitespace characters removed by Python's `str.strip()`. -/
def isWsChar (c : Char) : Bool :=
  c = ' ' || c = '\t' || c = '\n' || c = '\r' || c = '\x0b' || c = '\x0c'

/-- Python's `str.strip()` (ASCII whitespace). -/
def trimChars (s : List Char) : List Char :=
  ((s.dropWhile isWsChar).reverse.dropWhile isWsChar).reverse

/-- Python's `s.split(';')`. -/
def splitSemi : List Char → List (List Char)
  | [] => [[]]
  | c :: rest =>
    if c = ';' then [] :: splitSemi rest
    else
      match splitSemi rest with
      | f :: fs => (c :: f) :: fs
      | [] => [[c]]

/-- A word character in the sense of the regex `\b` boundary (`[A-Za-z0-9_]`;
the validator only ever applies it to upper-cased ASCII SQL text). -/
def isWordChar (c : Char) : Bool := c.isAlphanum || c = '_'

/-- `afterBoundaryOk l` holds when `l` is empty or starts with a non-word
character: the regex `\b` boundary after a keyword occurrence. -/
def afterBoundaryOk : List Char → Bool
  | [] => true
  | c :: _ => !isWordChar c

/-- Helper for `containsWordB`: scan positions, remembering the previous
character (for the `\b` boundary before the keyword). -/
def containsWordAux (kw : List Char) (prev : Option Char) : List Char → Bool
  | [] => false
  | c :: rest =>
    ((match prev with | none => true | some p => !isWordChar p) &&
      kw.isPrefixOf (c :: rest) && afterBoundaryOk ((c :: rest).drop kw.length)) ||
    containsWordAux kw (some c) rest

/-- Python's `re.search(r'\b' + kw + r'\b', s) is not None`: `kw` occurs in
`s` as a standalone word. -/
def containsWordB (kw : List Char) (s : List Char) : Bool :=
  containsWordAux kw none s

/-- Decimal digits of a natural number (auxiliary, fuel-driven). -/
def natToCharsAux : Nat → Nat → List Char
  | 0, _ => []
  | fuel + 1, n =>
    if n = 0 then [] else natToCharsAux fuel (n / 10) ++ [Char.ofNat (48 + n % 10)]

/-- Python's `str(n)` for a non-negative integer. -/
def natToChars (n : Nat) : List Char :=
  if n = 0 then ['0'] else natToCharsAux (n + 1) n

/-- Python's `f"{n:02d}"` for a non-negative integer. -/
def padTwo (n : Nat) : List Char :=
  if n < 10 then '0' :: natToChars n else natToChars n

/-- Numeric value of a list of decimal digit characters (Python's `int(s)`
for the digit substrings extracted by the service's regexes). -/
def charsToNat (s : List Char) : Nat :=
  s.foldl (fun n c => n * 10 + (c.toNat - 48)) 0

/-- Python's `s.replace(pat, rep)` (leftmost, non-overlapping), fuel-driven
on the length of `s`. -/
def replaceAllFuel (pat rep : List Char) : Nat → List Char → List Char
  | 0, s => s
  | fuel + 1, s =>
    if pat ≠ [] ∧ pat.isPrefixOf s then rep ++ replaceAllFuel pat rep fuel (s.drop pat.length)
    else
      match s with
      | [] => []
      | c :: t => c :: replaceAllFuel pat rep fuel t

/-- Python's `s.replace(pat, rep)`. -/
def replaceAll (pat rep s : List Char) : List Char :=
  replaceAllFuel pat rep s.length s

/-- Python's `" AND ".join(parts)`. -/
def joinAnd : List (List Char) → List Char
  | [] => []
  | [x] => x
  | x :: y :: rest => x ++ " AND ".toList ++ joinAnd (y :: rest)

/-! ### Basic lemmas about the string utilities -/

theorem containsSub_nil_iff (pat : List Char) : containsSub pat [] = true ↔ pat = [] := by
  simp [containsSub, List.isEmpty_iff]

theorem containsSub_cons (pat : List Char) (c : Char) (rest : List Char) :
    containsSub pat (c :: rest) = (pat.isPrefixOf (c :: rest) || containsSub pat rest) := rfl

theorem isPrefixOf_iff_exists (p s : List Char) :
    p.isPrefixOf s = true ↔ ∃ v, s = p ++ v := by
  induction p generalizing s with
  | nil => simp [List.isPrefixOf]
  | cons a p ih =>
    cases s with
    | nil => simp [List.isPrefixOf]
    | cons b t =>
      simp only [List.isPrefixOf, Bool.and_eq_true, beq_iff_eq, ih, List.cons_append,
        List.cons.injEq]
      constructor
      · rintro ⟨rfl, v, rfl⟩; exact ⟨v, rfl, rfl⟩
      · rintro ⟨v, rfl, rfl⟩; exact ⟨rfl, v, rfl⟩

theorem containsSub_iff_exists (pat s : List Char) :
    containsSub pat s = true ↔ ∃ u v, s = u ++ pat ++ v := by
  induction s with
  | nil =>
    rw [containsSub_nil_iff]
    constructor
    · rintro rfl; exact ⟨[], [], rfl⟩
    · rintro ⟨u, v, h⟩
      rcases List.append_eq_nil.mp (List.append_eq_nil.mp h.symm).1 with ⟨-, h2⟩
      exact h2
  | cons c rest ih =>
    rw [containsSub_cons, Bool.or_eq_true, isPrefixOf_iff_exists, ih]
    constructor
    · rintro (⟨v, hv⟩ | ⟨u, v, rfl⟩)
      · exact ⟨[], v, by simpa using hv⟩
      · exact ⟨c :: u, v, rfl⟩
    · rintro ⟨u, v, h⟩
      cases u with
      | nil => exact Or.inl ⟨v, by simpa using h⟩
      | cons u0 u' =>
        simp only [List.cons_append, List.cons.injEq] at h
        exact Or.inr ⟨u', v, h.2⟩

theorem containsSub_of_prefixOf (pat s : List Char) (h : pat.isPrefixOf s = true) :
    containsSub pat s = true := by
  rcases (isPrefixOf_iff_exists pat s).mp h with ⟨v, rfl⟩
  exact (containsSub_iff_exists pat (pat ++ v)).mpr ⟨[], v, rfl⟩

theorem containsSub_append_left (pat u v : List Char) (h : containsSub pat u = true) :
    containsSub pat (u ++ v) = true := by
  rcases (containsSub_iff_exists pat u).mp h with ⟨a, b, rfl⟩
  exact (containsSub_iff_exists _ _).mpr ⟨a, b ++ v, by simp⟩

theorem containsSub_append_right (pat u v : List Char) (h : containsSub pat v = true) :
    containsSub pat (u ++ v) = true := by
  rcases (containsSub_iff_exists pat v).mp h with ⟨a, b, rfl⟩
  exact (containsSub_iff_exists _ _).mpr ⟨u ++ a, b, by simp⟩

theorem containsSub_reverse (pat s : List Char) :
    containsSub pat.reverse s.reverse = containsSub pat s := by
  apply Bool.eq_iff_iff.mpr
  rw [containsSub_iff_exists, containsSub_iff_exists]
  constructor
  · rintro ⟨u, v, h⟩
    refine ⟨v.reverse, u.reverse, ?_⟩
    have := congrArg List.reverse h
    simpa [List.append_assoc] using this
  · rintro ⟨u, v, rfl⟩
    exact ⟨v.reverse, u.reverse, by simp [List.append_assoc]⟩

theorem ne_nil_of_containsSub (pat s : List Char) (hp : pat ≠ [])
    (h : containsSub pat s = true) : s ≠ [] := by
  rintro rfl
  exact hp ((containsSub_nil_iff pat).mp h)

/-- `splitSemi` never returns the empty list of fragments. -/
theorem splitSemi_ne_nil (s : List Char) : splitSemi s ≠ [] := by
  cases s with
  | nil => simp [splitSemi]
  | cons c rest =>
    by_cases hc : c = ';'
    · simp [splitSemi, hc]
    · simp only [splitSemi, if_neg hc]
      rcases splitSemi rest with _ | ⟨f0, fs⟩ <;> simp

/-- Elements produced by `splitSemi` never contain `';'`. -/
theorem splitSemi_no_semi (s : List Char) :
    ∀ f ∈ splitSemi s, ';' ∉ f := by
  induction s with
  | nil => intro f hf; simp only [splitSemi, List.mem_singleton] at hf; simp [hf]
  | cons c rest ih =>
    intro f hf
    by_cases hc : c = ';'
    · simp only [splitSemi, if_pos hc] at hf
      rcases List.mem_cons.mp hf with rfl | hf
      · simp
      · exact ih f hf
    · simp only [splitSemi, if_neg hc] at hf
      rcases hrec : splitSemi rest with _ | ⟨f0, fs⟩
      · exact absurd hrec (splitSemi_ne_nil rest)
      · rw [hrec] at hf
        rcases List.mem_cons.mp hf with rfl | hf
        · intro hm
          rcases List.mem_cons.mp hm with h1 | h1
          · exact hc h1.symm
          · exact ih f0 (by rw [hrec]; exact List.mem_cons_self f0 fs) h1
        · exact ih f (by rw [hrec]; exact List.mem_cons_of_mem f0 hf)

/-- The first fragment of `splitSemi` is everything before the first `';'`. -/
theorem splitSemi_head (s : List Char) :
    ∃ fs, splitSemi s = s.takeWhile (fun c => !(c = ';')) :: fs := by
  induction s with
  | nil => exact ⟨[], rfl⟩
  | cons c rest ih =>
    by_cases hc : c = ';'
    · subst hc
      refine ⟨splitSemi rest, ?_⟩
      simp [splitSemi, List.takeWhile]
    · rcases ih with ⟨fs, hfs⟩
      refine ⟨fs, ?_⟩
      simp only [splitSemi, if_neg hc, hfs, List.takeWhile]
      simp [hc]

theorem mem_of_mem_trimChars (s : List Char) (c : Char) (h : c ∈ trimChars s) : c ∈ s := by
  unfold trimChars at h
  rw [List.mem_reverse] at h
  have h2 := (List.dropWhile_sublist isWsChar (l := (s.dropWhile isWsChar).reverse)).mem h
  rw [List.mem_reverse] at h2
  exact (List.dropWhile_sublist isWsChar (l := s)).mem h2

/-! ### Upper-casing, whitespace and the survival of `SELECT` occurrences -/

theorem toUpper_semi : Char.toUpper ';' = ';' := by decide

theorem toUpper_of_isWsChar (c : Char) (h : isWsChar c = true) : c.toUpper = c := by
  simp only [isWsChar, Bool.or_eq_true, decide_eq_true_eq] at h
  rcases h with ((((rfl | rfl) | rfl) | rfl) | rfl) | rfl <;> decide

theorem upperL_nil : upperL [] = [] := rfl

theorem upperL_cons (c : Char) (t : List Char) : upperL (c :: t) = c.toUpper :: upperL t := rfl

theorem upperL_append (u v : List Char) : upperL (u ++ v) = upperL u ++ upperL v := by
  simp [upperL]

theorem upperL_reverse (s : List Char) : upperL s.reverse = (upperL s).reverse := by
  simp [upperL, List.map_reverse]

/-- A prefix occurrence of a `';'`-free pattern in the upper-cased string
survives truncation at the first `';'`. -/
theorem prefixOf_upperL_takeWhile (p : List Char) (hp : ';' ∉ p) :
    ∀ t : List Char, p.isPrefixOf (upperL t) = true →
      p.isPrefixOf (upperL (t.takeWhile (fun c => !(c = ';')))) = true := by
  induction p with
  | nil => intro t _; simp [List.isPrefixOf]
  | cons ph p' ih =>
    intro t h
    cases t with
    | nil => simp [upperL_nil, List.isPrefixOf] at h
    | cons c t' =>
      rw [upperL_cons] at h
      simp only [List.isPrefixOf, Bool.and_eq_true, beq_iff_eq] at h
      have hc : ¬(c = ';') := by
        rintro rfl
        exact hp (h.1 ▸ (toUpper_semi ▸ List.mem_cons_self ';' p'))
      rw [List.takeWhile_cons, if_pos (by simp [hc])]
      rw [upperL_cons]
      simp only [List.isPrefixOf, Bool.and_eq_true, beq_iff_eq]
      exact ⟨h.1, ih (fun hm => hp (List.mem_cons_of_mem ph hm)) t' h.2⟩

/-- If a `';'`-free pattern occurs in the upper-cased string, it occurs in
the upper-casing of one of the `';'`-separated fragments. -/
theorem containsSub_upperL_splitSemi (p : List Char) (hp : ';' ∉ p) (hne : p ≠ []) :
    ∀ s : List Char, containsSub p (upperL s) = true →
      ∃ f ∈ splitSemi s, containsSub p (upperL f) = true := by
  intro s
  induction s with
  | nil =>
    intro h
    rw [upperL_nil, containsSub_nil_iff] at h
    exact absurd h hne
  | cons c rest ih =>
    intro h
    rw [upperL_cons, containsSub_cons, Bool.or_eq_true] at h
    by_cases hc : c = ';'
    · subst hc
      have hright : containsSub p (upperL rest) = true := by
        rcases h with h | h
        · cases p with
          | nil => exact absurd rfl hne
          | cons p0 p' =>
            simp only [List.isPrefixOf, Bool.and_eq_true, beq_iff_eq] at h
            exfalso
            apply hp
            have hp0 : p0 = ';' := by rw [h.1, toUpper_semi]
            rw [hp0.symm]
            exact List.mem_cons_self p0 p'
        · exact h
      rcases ih hright with ⟨f, hf, hcf⟩
      exact ⟨f, by simp only [splitSemi, if_pos rfl]; exact List.mem_cons_of_mem _ hf, hcf⟩
    · rcases hrec : splitSemi rest with _ | ⟨f0, fs⟩
      · exact absurd hrec (splitSemi_ne_nil rest)
      rcases h with h | h
      · -- the pattern occurrence starts at `c`: it stays within the first fragment
        refine ⟨c :: f0, ?_, ?_⟩
        · simp only [splitSemi, if_neg hc, hrec]
          exact List.mem_cons_self _ _
        · cases p with
          | nil => exact absurd rfl hne
          | cons p0 p' =>
            simp only [List.isPrefixOf, Bool.and_eq_true, beq_iff_eq] at h
            have hf0 : f0 = rest.takeWhile (fun c => !(c = ';')) := by
              rcases splitSemi_head rest with ⟨fs', hfs'⟩
              rw [hrec] at hfs'
              exact (List.cons.injEq _ _ _ _ ▸ hfs').1
            rw [upperL_cons]
            simp only [containsSub_cons, Bool.or_eq_true]
            left
            simp only [List.isPrefixOf, Bool.and_eq_true, beq_iff_eq]
            refine ⟨h.1, ?_⟩
            rw [hf0]
            exact prefixOf_upperL_takeWhile p' (fun hm => hp (List.mem_cons_of_mem p0 hm))
              rest h.2
      · rcases ih h with ⟨f, hf, hcf⟩
        rw [hrec] at hf
        rcases List.mem_cons.mp hf with rfl | hf
        · refine ⟨c :: f, ?_, ?_⟩
          · simp only [splitSemi, if_neg hc, hrec]
            exact List.mem_cons_self _ _
          · rw [upperL_cons, containsSub_cons]
            exact Bool.or_eq_true _ _ |>.mpr (Or.inr hcf)
        · refine ⟨f, ?_, hcf⟩
          simp only [splitSemi, if_neg hc, hrec]
          exact List.mem_cons_of_mem _ hf

/-- An occurrence of a whitespace-free pattern in the upper-cased string
survives dropping leading whitespace. -/
theorem containsSub_upperL_dropWhile_ws (p : List Char) (hne : p ≠ [])
    (hnw : ∀ c ∈ p, isWsChar c = false) :
    ∀ s : List Char, containsSub p (upperL s) = true →
      containsSub p (upperL (s.dropWhile isWsChar)) = true := by
  intro s
  induction s with
  | nil => intro h; simpa using h
  | cons c t ih =>
    intro h
    by_cases hws : isWsChar c = true
    · rw [List.dropWhile_cons, if_pos hws]
      apply ih
      rw [upperL_cons, containsSub_cons, Bool.or_eq_true] at h
      rcases h with h | h
      · cases p with
        | nil => exact absurd rfl hne
        | cons p0 p' =>
          simp only [List.isPrefixOf, Bool.and_eq_true, beq_iff_eq] at h
          have : isWsChar p0 = false := hnw p0 (List.mem_cons_self _ _)
          rw [h.1, toUpper_of_isWsChar c hws] at this
          rw [this] at hws
          exact absurd hws (by simp)
      · exact h
    · rw [List.dropWhile_cons, if_neg hws]
      exact h

/-- An occurrence of a nonempty whitespace-free pattern in the upper-cased
string survives `strip()`. -/
theorem containsSub_upperL_trimChars (p : List Char) (hne : p ≠ [])
    (hnw : ∀ c ∈ p, isWsChar c = false) (f : List Char)
    (h : containsSub p (upperL f) = true) :
    containsSub p (upperL (trimChars f)) = true := by
  have h1 : containsSub p (upperL (f.dropWhile isWsChar)) = true :=
    containsSub_upperL_dropWhile_ws p hne hnw f h
  have h2 : containsSub p.reverse (upperL (f.dropWhile isWsChar).reverse) = true := by
    rw [upperL_reverse, containsSub_reverse]
    exact h1
  have h3 : containsSub p.reverse
      (upperL ((f.dropWhile isWsChar).reverse.dropWhile isWsChar)) = true :=
    containsSub_upperL_dropWhile_ws p.reverse (by simpa using hne)
      (fun c hc => hnw c (List.mem_reverse.mp hc)) (f.dropWhile isWsChar).reverse h2
  have key := containsSub_reverse p.reverse
      (upperL ((f.dropWhile isWsChar).reverse.dropWhile isWsChar))
  rw [List.reverse_reverse] at key
  show containsSub p
      (upperL (((f.dropWhile isWsChar).reverse.dropWhile isWsChar).reverse)) = true
  rw [upperL_reverse, key]
  exact h3

/-! ## `nlsql.py`: the SQL planner / validator (string-level pipeline)

The functions below are translated from `server/app/services/nlsql.py`.
The LLM post-processing chain in `_generate_sql_with_llm` is
`_validate_sql_security_simple` (which only logs and returns its input
unchanged) followed by `_fix_llm_query_issues`; `plan_sql` then runs
`_validate_and_secure_sql`, whose string-level checks
(`_validate_sql_security`) are modelled by `validate_sql_security_str`.
-/

/-- The token `"SELECT"`. -/
def selTok : List Char := "SELECT".toList

/-- Dangerous keywords rejected by `_validate_sql_security` (as standalone
regex words on the upper-cased SQL). -/
def dangerousKeywordsV : List (List Char) :=
  ["INSERT".toList, "UPDATE".toList, "DELETE".toList, "DROP".toList, "CREATE".toList,
   "ALTER".toList, "TRUNCATE".toList, "EXEC".toList, "EXECUTE".toList]

/-- The `--` comment marker. -/
def commentDD : List Char := "--".toList

/-- The `/*` comment marker. -/
def commentOpen : List Char := "/*".toList

/-- The `*/` comment marker. -/
def commentClose : List Char := "*/".toList

/-- `ALLOWED_TABLES` from `nlsql.py`. -/
def allowedTables : List (List Char) := ["proposals".toList, "proposals_embeddings".toList]

/-- `ALLOWED_COLUMNS` from `nlsql.py`. -/
def allowedColumns : List (List Char) :=
  ["id".toList, "network".toList, "type".toList, "title".toList, "description".toList,
   "proposer".toList, "amount_numeric".toList, "currency".toList, "status".toList,
   "created_at".toList, "updated_at".toList]

/-- The month-name table of `_extract_date_filter`, in Python dict
(insertion) order. -/
def monthPatterns : List (List Char × List Char) :=
  [("january".toList, "01".toList), ("jan".toList, "01".toList),
   ("february".toList, "02".toList), ("feb".toList, "02".toList),
   ("march".toList, "03".toList), ("mar".toList, "03".toList),
   ("april".toList, "04".toList), ("apr".toList, "04".toList),
   ("may".toList, "05".toList),
   ("june".toList, "06".toList), ("jun".toList, "06".toList),
   ("july".toList, "07".toList), ("jul".toList, "07".toList),
   ("august".toList, "08".toList), ("aug".toList, "08".toList),
   ("september".toList, "09".toList), ("sep".toList, "09".toList),
   ("sept".toList, "09".toList),
   ("october".toList, "10".toList), ("oct".toList, "10".toList),
   ("november".toList, "11".toList), ("nov".toList, "11".toList),
   ("december".toList, "12".toList), ("dec".toList, "12".toList)]

/-- `re.search(r'(\d{4})', s)`: the leftmost run of four decimal digits. -/
def scan4 : List Char → Option (List Char)
  | a :: b :: c :: d :: rest =>
    if a.isDigit && b.isDigit && c.isDigit && d.isDigit then some [a, b, c, d]
    else scan4 (b :: c :: d :: rest)
  | _ => none

/-- `re.search(r'(\d{4})-(\d{2})', s)`: the leftmost `YYYY-MM` occurrence. -/
def scanYM : List Char → Option (List Char × List Char)
  | a :: b :: c :: d :: e :: f :: g :: rest =>
    if a.isDigit && b.isDigit && c.isDigit && d.isDigit && (e = '-') && f.isDigit &&
        g.isDigit then
      some ([a, b, c, d], [f, g])
    else scanYM (b :: c :: d :: e :: f :: g :: rest)
  | _ => none

/-- The `created_at`-range filter string built by `_extract_date_filter`
from a year string and a two-digit month string. -/
def buildDateFilter (y mm : List Char) : List Char :=
  let startDate := y ++ ['-'] ++ mm ++ "-01".toList
  let endDate :=
    if mm = "12".toList then natToChars (charsToNat y + 1) ++ "-01-01".toList
    else y ++ ['-'] ++ padTwo (charsToNat mm + 1) ++ "-01".toList
  "created_at >= '".toList ++ startDate ++ "' AND created_at < '".toList ++ endDate ++ ['\'']

/-- The month-name loop of `_extract_date_filter`: the first month whose
name occurs in the query produces a filter, provided a four-digit year is
also present (otherwise the loop falls through). -/
def monthScan : List (List Char × List Char) → List Char → Option (List Char)
  | [], _ => none
  | (nm, mm) :: rest, ql =>
    if containsSub nm ql then
      match scan4 ql with
      | some y => some (buildDateFilter y mm)
      | none => monthScan rest ql
    else monthScan rest ql

/-- `_extract_date_filter` from `nlsql.py` (input is the lower-cased query). -/
def extract_date_filter (ql : List Char) : List Char :=
  match monthScan monthPatterns ql with
  | some f => f
  | none =>
    match scanYM ql with
    | some (y, m) => buildDateFilter y m
    | none => []

/-- The network table of `_extract_network_filter`, in Python dict order. -/
def networkPatterns : List (List Char × List (List Char)) :=
  [("polkadot".toList, ["polkadot".toList, "dot".toList]),
   ("kusama".toList, ["kusama".toList, "ksm".toList]),
   ("substrate".toList, ["substrate".toList]),
   ("westend".toList, ["westend".toList, "westend testnet".toList]),
   ("rococo".toList, ["rococo".toList, "rococo testnet".toList])]

/-- Inner loop of `_extract_network_filter`: first matching variant wins. -/
def netScanInner (network : List Char) : List (List Char) → List Char → Option (List Char)
  | [], _ => none
  | p :: ps, ql =>
    if containsSub p ql then some ("network = '".toList ++ network ++ ['\''])
    else netScanInner network ps ql

/-- Outer loop of `_extract_network_filter`. -/
def netScan : List (List Char × List (List Char)) → List Char → Option (List Char)
  | [], _ => none
  | (nw, pats) :: rest, ql =>
    match netScanInner nw pats ql with
    | some r => some r
    | none => netScan rest ql

/-- `_extract_network_filter` from `nlsql.py` (input is the lower-cased
query; returns `""` when no network is mentioned). -/
def extract_network_filter (ql : List Char) : List Char :=
  (netScan networkPatterns ql).getD []

/-- The body of `_generate_fallback_sql` from `nlsql.py`, projected onto the
`"sql"` field of the returned dict (the `"plan"` prose and the always-empty
`"params"` list play no role in any claim).  Factored over the extracted
network filter `netF` and date filter `dateF`. -/
def generate_fallback_sql_core (ql netF dateF : List Char) : List Char :=
  let conds := (if netF ≠ [] then [netF] else []) ++ (if dateF ≠ [] then [dateF] else [])
  let whereClause := joinAnd conds
  let whereSql := if whereClause ≠ [] then " WHERE ".toList ++ whereClause else []
  if containsSub ("how many".toList) ql ∧ containsSub ("proposals".toList) ql then
    if containsSub ("treasury".toList) ql then
      if conds = [] then "SELECT COUNT(*) FROM proposals WHERE type = 'TreasuryProposal'".toList
      else
        "SELECT COUNT(*) FROM proposals WHERE type = 'TreasuryProposal'".toList ++
          replaceAll (" WHERE ".toList) (" AND ".toList) whereSql
    else "SELECT COUNT(*) FROM proposals".toList ++ whereSql
  else if containsSub ("show".toList) ql ∧ containsSub ("recent".toList) ql then
    "SELECT * FROM proposals".toList ++ whereSql ++ " ORDER BY created_at DESC LIMIT 5".toList
  else if containsSub ("show".toList) ql ∧ containsSub ("treasury".toList) ql then
    "SELECT * FROM proposals WHERE ".toList ++
      ("type = 'TreasuryProposal'".toList ++
        (if conds ≠ [] then " AND ".toList ++ whereClause else [])) ++ " LIMIT 5".toList
  else "SELECT * FROM proposals".toList ++ whereSql ++ " LIMIT 5".toList

/-- `_generate_fallback_sql` from `nlsql.py` (sql field): extract the date
and network filters from the lower-cased query, then build the template. -/
def generate_fallback_sql (userQuery : List Char) : List Char :=
  generate_fallback_sql_core (lowerL userQuery)
    (extract_network_filter (lowerL userQuery)) (extract_date_filter (lowerL userQuery))

/-- `_validate_sql_security_simple` from `nlsql.py`: it scans for dangerous
keywords but, as written, only logs and always returns its input unchanged
(the loop body is `pass`). -/
def validate_sql_security_simple (sql : List Char) : List Char := sql

/-- The multiple-statement recovery inside `_fix_llm_query_issues`: split on
`';'`, keep the nonempty stripped fragments, take the first fragment whose
upper-casing contains `SELECT`, and strip one matching outer pair of
parentheses.  Returns the input unchanged when no fragment qualifies. -/
def firstSelectStatement (sql : List Char) : List Char :=
  match (((splitSemi sql).map trimChars).filter (fun st => !st.isEmpty)).filter
      (fun st => containsSub selTok (upperL st)) with
  | [] => sql
  | s0 :: _ =>
    if (trimChars s0).head? = some '(' ∧ (trimChars s0).getLast? = some ')' then
      trimChars (((trimChars s0).drop 1).dropLast)
    else trimChars s0

/-- The complex-construct test of `_fix_llm_query_issues` (note: it is
applied to the *original* `sql` local variable, not the semicolon-fixed
one, and `'array_agg'`/`'row_to_json'` are compared against the upper-cased
SQL, so those two entries can never match). -/
def hasComplexKeyword (sql : List Char) : Bool :=
  ["WITH ".toList, "CTE".toList, "UNION".toList, "array_agg".toList,
   "row_to_json".toList].any (fun k => containsSub k (upperL sql))

/-- The example-request phrases tested by `_fix_llm_query_issues`. -/
def examplesPhrasesFix : List (List Char) :=
  ["show examples".toList, "show some".toList, "name a few".toList]

/-- `_fix_llm_query_issues` from `nlsql.py`, projected onto the `"sql"`
field.  The semicolon fix updates the result first; the two complex-query
checks then read the *original* candidate string and the lower-cased user
query, and on a hit discard everything in favour of the deterministic
fallback. -/
def fix_llm_query_issues (sql userQuery : List Char) : List Char :=
  if containsSub ("how many".toList) (lowerL userQuery) = true ∧
      hasComplexKeyword sql = true then
    generate_fallback_sql userQuery
  else if (examplesPhrasesFix.any (fun p => containsSub p (lowerL userQuery))) = true ∧
      hasComplexKeyword sql = true then
    generate_fallback_sql userQuery
  else if ';' ∈ sql ∧ containsSub selTok (upperL sql) = true then firstSelectStatement sql
  else sql

/-- String-level model of the `isinstance(parse_one(sql), exp.Select)`
check in `_validate_sql_security`: a statement can only parse to a
`sqlglot` `Select` node if the token `SELECT` occurs in it.  (This is a
conservative model of the external `sqlglot` parser: whenever the real
check passes, this one does.) -/
def isSelectTop (sql : List Char) : Bool := containsSub selTok (upperL sql)

/-- The string-level checks of `_validate_sql_security` from `nlsql.py`:
only SELECT statements; no dangerous keyword as a standalone regex word of
the upper-cased SQL; no `--` / `/*` / `*/` comment markers.  (The
additional table/column allow-list walk `_validate_tables_and_columns`
operates on the `sqlglot` AST and is modelled separately on `SqlAst`
below; it can only cause *additional* rejections, which strengthens every
"the validator rejects" conclusion proved against this model.) -/
def validate_sql_security_str (sql : List Char) : Bool :=
  isSelectTop sql &&
  dangerousKeywordsV.all (fun kw => !containsWordB kw (upperL sql)) &&
  !containsSub commentDD sql && !containsSub commentOpen sql && !containsSub commentClose sql

/-- The dangerous fragments named by the spec: a standalone `DROP` or
`DELETE`, any `';'`, and the comment markers. -/
def sqlDangerFree (s : List Char) : Prop :=
  containsWordB ("DROP".toList) (upperL s) = false ∧
  containsWordB ("DELETE".toList) (upperL s) = false ∧
  ';' ∉ s ∧
  containsSub commentDD s = false ∧
  containsSub commentOpen s = false ∧
  containsSub commentClose s = false

/-- A candidate contains a second `';'`-separated statement: at least two
nonempty stripped fragments. -/
def hasSecondStatementB (s : List Char) : Bool :=
  decide (2 ≤ (((splitSemi s).map trimChars).filter (fun f => !f.isEmpty)).length)


/-! ### The fallback SQL and the first-SELECT extraction contain no `';'` -/

theorem not_mem_append₂ {α : Type} {c : α} {u v : List α} (h1 : c ∉ u) (h2 : c ∉ v) :
    c ∉ u ++ v := fun hm => (List.mem_append.mp hm).elim h1 h2

theorem not_mem_ite {α : Type} {c : α} {P : Prop} [Decidable P] {u v : List α}
    (h1 : c ∉ u) (h2 : c ∉ v) : c ∉ (if P then u else v) := by
  split
  · exact h1
  · exact h2

theorem digitChar_ne_semi (d : Nat) (h : d < 10) : Char.ofNat (48 + d) ≠ ';' := by
  interval_cases d <;> decide

theorem semi_not_mem_natToCharsAux (fuel n : Nat) : ';' ∉ natToCharsAux fuel n := by
  induction fuel generalizing n with
  | zero => simp [natToCharsAux]
  | succ fuel ih =>
    simp only [natToCharsAux]
    split
    · simp
    · refine not_mem_append₂ (ih (n / 10)) ?_
      intro hm
      exact digitChar_ne_semi (n % 10) (Nat.mod_lt _ (by norm_num))
        (List.mem_singleton.mp hm).symm

theorem semi_not_mem_natToChars (n : Nat) : ';' ∉ natToChars n := by
  unfold natToChars
  split
  · decide
  · exact semi_not_mem_natToCharsAux _ _

theorem semi_not_mem_padTwo (n : Nat) : ';' ∉ padTwo n := by
  unfold padTwo
  split
  · intro hm
    rcases List.mem_cons.mp hm with h | h
    · exact absurd h (by decide)
    · exact semi_not_mem_natToChars n h
  · exact semi_not_mem_natToChars n

theorem scan4_digits : ∀ (s y : List Char), scan4 s = some y → ∀ c ∈ y, c.isDigit = true
  | a :: b :: c :: d :: rest, y, h => by
    by_cases hd : (a.isDigit && b.isDigit && c.isDigit && d.isDigit) = true
    · rw [scan4, if_pos hd] at h
      injection h with h'
      subst h'
      simp only [Bool.and_eq_true] at hd
      intro x hx
      simp only [List.mem_cons, List.not_mem_nil, or_false] at hx
      rcases hx with rfl | rfl | rfl | rfl
      · exact hd.1.1.1
      · exact hd.1.1.2
      · exact hd.1.2
      · exact hd.2
    · rw [scan4, if_neg hd] at h
      exact scan4_digits (b :: c :: d :: rest) y h
  | [], y, h => by simp [scan4] at h
  | [a], y, h => by simp [scan4] at h
  | [a, b], y, h => by simp [scan4] at h
  | [a, b, c], y, h => by simp [scan4] at h

theorem scanYM_digits : ∀ (s : List Char) (y m : List Char), scanYM s = some (y, m) →
    (∀ c ∈ y, c.isDigit = true) ∧ (∀ c ∈ m, c.isDigit = true)
  | a :: b :: c :: d :: e :: f :: g :: rest, y, m, h => by
    by_cases hd : (a.isDigit && b.isDigit && c.isDigit && d.isDigit && (e = '-') &&
        f.isDigit && g.isDigit) = true
    · rw [scanYM, if_pos hd] at h
      injection h with h'
      injection h' with hy hm
      subst hy
      subst hm
      simp only [Bool.and_eq_true, decide_eq_true_eq] at hd
      constructor
      · intro x hx
        simp only [List.mem_cons, List.not_mem_nil, or_false] at hx
        rcases hx with rfl | rfl | rfl | rfl
        · exact hd.1.1.1.1.1.1
        · exact hd.1.1.1.1.1.2
        · exact hd.1.1.1.1.2
        · exact hd.1.1.1.2
      · intro x hx
        simp only [List.mem_cons, List.not_mem_nil, or_false] at hx
        rcases hx with rfl | rfl
        · exact hd.1.2
        · exact hd.2
    · rw [scanYM, if_neg hd] at h
      exact scanYM_digits (b :: c :: d :: e :: f :: g :: rest) y m h
  | [], y, m, h => by simp [scanYM] at h
  | [a], y, m, h => by simp [scanYM] at h
  | [a, b], y, m, h => by simp [scanYM] at h
  | [a, b, c], y, m, h => by simp [scanYM] at h
  | [a, b, c, d], y, m, h => by simp [scanYM] at h
  | [a, b, c, d, e], y, m, h => by simp [scanYM] at h
  | [a, b, c, d, e, f], y, m, h => by simp [scanYM] at h

theorem ne_semi_of_isDigit (c : Char) (h : c.isDigit = true) : ¬(c = ';') := by
  intro he; subst he; simp at h

theorem semi_not_mem_buildDateFilter (y mm : List Char)
    (hy : ∀ c ∈ y, c.isDigit = true) (hmm : ';' ∉ mm) : ';' ∉ buildDateFilter y mm := by
  have hy' : ';' ∉ y := fun hm => ne_semi_of_isDigit ';' (hy ';' hm) rfl
  show ';' ∉ "created_at >= '".toList ++ (y ++ ['-'] ++ mm ++ "-01".toList) ++
    "' AND created_at < '".toList ++
    (if mm = "12".toList then natToChars (charsToNat y + 1) ++ "-01-01".toList
      else y ++ ['-'] ++ padTwo (charsToNat mm + 1) ++ "-01".toList) ++ ['\'']
  exact not_mem_append₂ (not_mem_append₂ (not_mem_append₂ (not_mem_append₂ (by decide)
    (not_mem_append₂ (not_mem_append₂ (not_mem_append₂ hy' (by decide)) hmm) (by decide)))
    (by decide))
    (not_mem_ite (not_mem_append₂ (semi_not_mem_natToChars _) (by decide))
      (not_mem_append₂ (not_mem_append₂ (not_mem_append₂ hy' (by decide))
        (semi_not_mem_padTwo _)) (by decide)))) (by decide)

theorem semi_not_mem_monthScan (pats : List (List Char × List Char)) (ql f : List Char)
    (hpats : ∀ p ∈ pats, ';' ∉ p.2) (h : monthScan pats ql = some f) : ';' ∉ f := by
  induction pats with
  | nil => simp [monthScan] at h
  | cons p rest ih =>
    rcases p with ⟨nm, mm⟩
    simp only [monthScan] at h
    split at h
    · rcases hy : scan4 ql with _ | y
      · rw [hy] at h
        exact ih (fun p hp => hpats p (List.mem_cons_of_mem _ hp)) h
      · rw [hy] at h
        injection h with h'
        subst h'
        exact semi_not_mem_buildDateFilter y mm (scan4_digits ql y hy)
          (hpats (nm, mm) (List.mem_cons_self _ _))
    · exact ih (fun p hp => hpats p (List.mem_cons_of_mem _ hp)) h

theorem semi_not_mem_extract_date_filter (ql : List Char) :
    ';' ∉ extract_date_filter ql := by
  unfold extract_date_filter
  rcases hms : monthScan monthPatterns ql with _ | f
  · rcases hym : scanYM ql with _ | ⟨y, m⟩
    · simp
    · exact semi_not_mem_buildDateFilter y m (scanYM_digits ql y m hym).1
        (fun hm => ne_semi_of_isDigit ';' ((scanYM_digits ql y m hym).2 ';' hm) rfl)
  · exact semi_not_mem_monthScan monthPatterns ql f (by decide) hms

theorem semi_not_mem_netScanInner (network : List Char) (pats : List (List Char))
    (ql f : List Char) (hn : ';' ∉ network) (h : netScanInner network pats ql = some f) :
    ';' ∉ f := by
  induction pats with
  | nil => simp [netScanInner] at h
  | cons p ps ih =>
    simp only [netScanInner] at h
    split at h
    · injection h with h'
      subst h'
      exact not_mem_append₂ (not_mem_append₂ (by decide) hn) (by decide)
    · exact ih h

theorem semi_not_mem_netScan (pats : List (List Char × List (List Char))) (ql f : List Char)
    (hpats : ∀ p ∈ pats, ';' ∉ p.1) (h : netScan pats ql = some f) : ';' ∉ f := by
  induction pats with
  | nil => simp [netScan] at h
  | cons p rest ih =>
    rcases p with ⟨nw, vs⟩
    simp only [netScan] at h
    rcases hin : netScanInner nw vs ql with _ | r
    · rw [hin] at h
      exact ih (fun p hp => hpats p (List.mem_cons_of_mem _ hp)) h
    · rw [hin] at h
      injection h with h'
      subst h'
      exact semi_not_mem_netScanInner nw vs ql r (hpats (nw, vs) (List.mem_cons_self _ _)) hin

theorem semi_not_mem_extract_network_filter (ql : List Char) :
    ';' ∉ extract_network_filter ql := by
  unfold extract_network_filter
  rcases hns : netScan networkPatterns ql with _ | f
  · simp
  · exact semi_not_mem_netScan networkPatterns ql f (by decide) hns

theorem semi_not_mem_joinAnd (parts : List (List Char))
    (hp : ∀ x ∈ parts, ';' ∉ x) : ';' ∉ joinAnd parts := by
  induction parts with
  | nil => simp [joinAnd]
  | cons x rest ih =>
    cases rest with
    | nil => exact hp x (List.mem_cons_self _ _)
    | cons y rest' =>
      refine not_mem_append₂ (not_mem_append₂ (hp x (List.mem_cons_self _ _)) (by decide)) ?_
      exact ih (fun z hz => hp z (List.mem_cons_of_mem _ hz))

theorem mem_replaceAllFuel (pat rep : List Char) (c : Char) :
    ∀ (fuel : Nat) (s : List Char), c ∈ replaceAllFuel pat rep fuel s → c ∈ s ∨ c ∈ rep := by
  intro fuel
  induction fuel with
  | zero => intro s h; exact Or.inl h
  | succ fuel ih =>
    intro s h
    simp only [replaceAllFuel] at h
    split at h
    · rcases List.mem_append.mp h with h | h
      · exact Or.inr h
      · rcases ih (s.drop pat.length) h with h | h
        · exact Or.inl ((List.drop_sublist _ _).mem h)
        · exact Or.inr h
    · match s, h with
      | [], h => exact absurd h (List.not_mem_nil c)
      | x :: t, h =>
        rcases List.mem_cons.mp h with rfl | h
        · exact Or.inl (List.mem_cons_self _ _)
        · rcases ih t h with h | h
          · exact Or.inl (List.mem_cons_of_mem _ h)
          · exact Or.inr h

theorem not_mem_replaceAll {pat rep s : List Char} {c : Char}
    (hs : c ∉ s) (hr : c ∉ rep) : c ∉ replaceAll pat rep s := by
  intro hm
  rcases mem_replaceAllFuel pat rep c s.length s hm with h | h
  · exact hs h
  · exact hr h

theorem semi_not_mem_generate_fallback_sql_core (ql netF dateF : List Char)
    (hnf : ';' ∉ netF) (hdf : ';' ∉ dateF) :
    ';' ∉ generate_fallback_sql_core ql netF dateF := by
  have hconds : ∀ x ∈ ((if netF ≠ [] then [netF] else []) ++
      (if dateF ≠ [] then [dateF] else [])), ';' ∉ x := by
    intro x hx
    rcases List.mem_append.mp hx with hx | hx
    · split at hx
      · rcases List.mem_singleton.mp hx with rfl; exact hnf
      · exact absurd hx (List.not_mem_nil x)
    · split at hx
      · rcases List.mem_singleton.mp hx with rfl; exact hdf
      · exact absurd hx (List.not_mem_nil x)
  have hwc : ';' ∉ joinAnd ((if netF ≠ [] then [netF] else []) ++
      (if dateF ≠ [] then [dateF] else [])) := semi_not_mem_joinAnd _ hconds
  have hws : ';' ∉ (if joinAnd ((if netF ≠ [] then [netF] else []) ++
      (if dateF ≠ [] then [dateF] else [])) ≠ [] then
      " WHERE ".toList ++ joinAnd ((if netF ≠ [] then [netF] else []) ++
        (if dateF ≠ [] then [dateF] else []))
      else []) := not_mem_ite (not_mem_append₂ (by decide) hwc) (by simp)
  show ';' ∉ (if containsSub ("how many".toList) ql ∧ containsSub ("proposals".toList) ql then
      _ else _)
  refine not_mem_ite (not_mem_ite (not_mem_ite (by decide)
    (not_mem_append₂ (by decide) (not_mem_replaceAll hws (by decide))))
    (not_mem_append₂ (by decide) hws)) ?_
  refine not_mem_ite (not_mem_append₂ (not_mem_append₂ (by decide) hws) (by decide)) ?_
  refine not_mem_ite (not_mem_append₂ (not_mem_append₂ (by decide)
    (not_mem_append₂ (by decide) (not_mem_ite (not_mem_append₂ (by decide) hwc) (by simp))))
    (by decide)) ?_
  exact not_mem_append₂ (not_mem_append₂ (by decide) hws) (by decide)

theorem semi_not_mem_generate_fallback_sql (q : List Char) :
    ';' ∉ generate_fallback_sql q :=
  semi_not_mem_generate_fallback_sql_core (lowerL q) _ _
    (semi_not_mem_extract_network_filter (lowerL q))
    (semi_not_mem_extract_date_filter (lowerL q))

theorem semi_not_mem_firstSelectStatement (sql : List Char)
    (h : containsSub selTok (upperL sql) = true) : ';' ∉ firstSelectStatement sql := by
  obtain ⟨f, hf, hcf⟩ := containsSub_upperL_splitSemi selTok (by decide) (by decide) sql h
  have htf : containsSub selTok (upperL (trimChars f)) = true :=
    containsSub_upperL_trimChars selTok (by decide) (by decide) f hcf
  have hne' : (trimChars f).isEmpty = false := by
    rcases htrim : trimChars f with _ | ⟨c, t⟩
    · rw [htrim] at htf
      exact absurd ((containsSub_nil_iff selTok).mp (by simpa [upperL] using htf)) (by decide)
    · rfl
  have hmem1 : trimChars f ∈ ((splitSemi sql).map trimChars).filter (fun st => !st.isEmpty) :=
    List.mem_filter.mpr ⟨List.mem_map_of_mem trimChars hf, by simp [hne']⟩
  have hmem2 : trimChars f ∈
      ((((splitSemi sql).map trimChars).filter (fun st => !st.isEmpty)).filter
        (fun st => containsSub selTok (upperL st))) :=
    List.mem_filter.mpr ⟨hmem1, htf⟩
  have hstmts : ∀ s0 ∈ (((splitSemi sql).map trimChars).filter (fun st => !st.isEmpty)).filter
      (fun st => containsSub selTok (upperL st)), ';' ∉ s0 := by
    intro s0 hs0
    have := (List.mem_filter.mp ((List.mem_filter.mp hs0).1)).1
    rcases List.mem_map.mp this with ⟨f', hf', rfl⟩
    exact fun hm => splitSemi_no_semi sql f' hf' (mem_of_mem_trimChars f' ';' hm)
  rcases hsel : (((splitSemi sql).map trimChars).filter (fun st => !st.isEmpty)).filter
      (fun st => containsSub selTok (upperL st)) with _ | ⟨s0, ss⟩
  · rw [hsel] at hmem2
    exact absurd hmem2 (List.not_mem_nil _)
  · have hs0 : ';' ∉ s0 := hstmts s0 (by rw [hsel]; exact List.mem_cons_self _ _)
    have hcln : ';' ∉ trimChars s0 := fun hm => hs0 (mem_of_mem_trimChars s0 ';' hm)
    unfold firstSelectStatement
    rw [hsel]
    refine not_mem_ite ?_ hcln
    intro hm
    have h1 := mem_of_mem_trimChars _ ';' hm
    have h2 := (List.dropLast_sublist ((trimChars s0).drop 1)).mem h1
    exact hcln ((List.drop_sublist 1 (trimChars s0)).mem h2)

theorem validate_sql_security_str_eq_true_iff (s : List Char) :
    validate_sql_security_str s = true ↔
      isSelectTop s = true ∧
      (∀ kw ∈ dangerousKeywordsV, containsWordB kw (upperL s) = false) ∧
      containsSub commentDD s = false ∧
      containsSub commentOpen s = false ∧
      containsSub commentClose s = false := by
  unfold validate_sql_security_str
  simp only [Bool.and_eq_true, List.all_eq_true, Bool.not_eq_true']
  tauto

theorem fix_llm_query_issues_cases (sql q : List Char) :
    fix_llm_query_issues sql q = generate_fallback_sql q ∨
    (containsSub selTok (upperL sql) = true ∧
      fix_llm_query_issues sql q = firstSelectStatement sql) ∨
    (¬(';' ∈ sql ∧ containsSub selTok (upperL sql) = true) ∧
      fix_llm_query_issues sql q = sql) := by
  unfold fix_llm_query_issues
  split_ifs with h1 h2 h3
  · exact Or.inl rfl
  · exact Or.inl rfl
  · exact Or.inr (Or.inl ⟨h3.2, rfl⟩)
  · exact Or.inr (Or.inr ⟨h3, rfl⟩)

/-- C1: for every SQL candidate containing `DROP` or `DELETE` (as standalone
words), a second `';'`-separated statement, or `--` / `/*` / `*/` comment
markers, the planning pipeline (`_validate_sql_security_simple`, the
first-SELECT extraction of `_fix_llm_query_issues`, then the string checks
of `_validate_sql_security`) either rejects the candidate (raises
`SQLSecurityError`, i.e. the validator returns `false`) or has rewritten it
so that the SQL handed to execution contains none of those dangerous
fragments. -/
theorem c1_dangerous_fragments_neutralized (sql userQuery : List Char)
    (hdanger : containsWordB ("DROP".toList) (upperL sql) = true ∨
      containsWordB ("DELETE".toList) (upperL sql) = true ∨
      hasSecondStatementB sql = true ∨
      containsSub commentDD sql = true ∨
      containsSub commentOpen sql = true ∨
      containsSub commentClose sql = true) :
    validate_sql_security_str
        (fix_llm_query_issues (validate_sql_security_simple sql) userQuery) = false ∨
      sqlDangerFree (fix_llm_query_issues (validate_sql_security_simple sql) userQuery) := by
  clear hdanger
  simp only [validate_sql_security_simple]
  by_cases hv : validate_sql_security_str (fix_llm_query_issues sql userQuery) = true
  · right
    obtain ⟨hS, hkw, hdd, hop, hcl⟩ := (validate_sql_security_str_eq_true_iff _).mp hv
    refine ⟨hkw ("DROP".toList) (by decide), hkw ("DELETE".toList) (by decide), ?_, hdd, hop, hcl⟩
    rcases fix_llm_query_issues_cases sql userQuery with hfb | ⟨hsel, hfs⟩ | ⟨hnc, hid⟩
    · rw [hfb]
      exact semi_not_mem_generate_fallback_sql userQuery
    · rw [hfs]
      exact semi_not_mem_firstSelectStatement sql hsel
    · rw [hid]
      intro hmem
      rw [hid] at hS
      exact hnc ⟨hmem, hS⟩
  · exact Or.inl (Bool.eq_false_iff.mpr hv)

/-- Witness for C1 at the spec's own end-to-end scenario 4 candidate. -/
theorem c1_dangerous_fragments_neutralized_witness :
    (containsWordB ("DROP".toList)
        (upperL ("SELECT * FROM proposals; DROP TABLE proposals;".toList)) = true ∨
      containsWordB ("DELETE".toList)
        (upperL ("SELECT * FROM proposals; DROP TABLE proposals;".toList)) = true ∨
      hasSecondStatementB ("SELECT * FROM proposals; DROP TABLE proposals;".toList) = true ∨
      containsSub commentDD ("SELECT * FROM proposals; DROP TABLE proposals;".toList) = true ∨
      containsSub commentOpen ("SELECT * FROM proposals; DROP TABLE proposals;".toList) = true ∨
      containsSub commentClose ("SELECT * FROM proposals; DROP TABLE proposals;".toList) = true) ∧
    (validate_sql_security_str
        (fix_llm_query_issues
          (validate_sql_security_simple ("SELECT * FROM proposals; DROP TABLE proposals;".toList))
          ("hello".toList)) = false ∨
      sqlDangerFree
        (fix_llm_query_issues
          (validate_sql_security_simple ("SELECT * FROM proposals; DROP TABLE proposals;".toList))
          ("hello".toList))) :=
  ⟨Or.inl (by decide),
    c1_dangerous_fragments_neutralized ("SELECT * FROM proposals; DROP TABLE proposals;".toList)
      ("hello".toList) (Or.inl (by decide))⟩

/-! ## `nlsql.py`: the AST-level validator `_validate_tables_and_columns`

`_validate_and_secure_sql` parses the candidate with `sqlglot` and walks
the resulting tree.  The fragment of the `sqlglot` AST that the validator
inspects is modelled by `SqlAst`: `select` nodes carry their `WITH` clause
(CTE definitions), `FROM` items (named tables and derived-table
subqueries) and column references; `union` models `exp.Union` (which is
*not* an `exp.Select`, so the top-level `isinstance` check rejects it);
`stmt` models any other statement kind.  A table reference has a `With`
ancestor exactly when it occurs inside a CTE body, which is what the
`parent.key == 'with'` walk in `_validate_tables_and_columns` tests. -/

/-- A column reference (`exp.Column`): name and optional table qualifier. -/
structure ColRef where
  name : List Char
  qualifier : Option (List Char)

mutual
inductive SqlAst : Type where
  | select (ctes : CteList) (froms : FromList) (cols : List ColRef)
  | union (l r : SqlAst)
  | stmt (kind : List Char)
inductive CteList : Type where
  | nil
  | cons (name : List Char) (body : SqlAst) (rest : CteList)
inductive FromList : Type where
  | nil
  | table (name : List Char) (rest : FromList)
  | sub (q : SqlAst) (rest : FromList)
end

/-- The reserved CTE name markers of `_validate_tables_and_columns`
(`table_name.startswith(('kusama_', 'polkadot_', 'temp_', 'cte_', 'with_'))`). -/
def hasCtePrefix (n : List Char) : Bool :=
  ["kusama_".toList, "polkadot_".toList, "temp_".toList, "cte_".toList,
   "with_".toList].any (fun p => p.isPrefixOf n)

/-- One table reference is acceptable: reserved prefix, allow-listed name,
or a `With`-clause ancestor (`is_cte`).  Mirrors the raise condition
`if not is_cte and table_name not in ALLOWED_TABLES`. -/
def tableNameOk (insideWith : Bool) (n : List Char) : Bool :=
  hasCtePrefix (lowerL n) || decide (lowerL n ∈ allowedTables) || insideWith

/-- The extra column names tolerated by `_validate_tables_and_columns`. -/
def extraColumnNames : List (List Char) :=
  ["count".toList, "samples".toList, "data".toList, "result".toList, "row".toList]

/-- One column reference is acceptable: allow-listed, in the extra set, or
qualified by a reserved-prefix CTE table. -/
def colOk (c : ColRef) : Bool :=
  decide (lowerL c.name ∈ allowedColumns) || decide (lowerL c.name ∈ extraColumnNames) ||
  (match c.qualifier with
   | some t => hasCtePrefix (lowerL t)
   | none => false)

mutual
/-- The table walk of `_validate_tables_and_columns` (true = no raise);
`insideWith` records whether the walk is inside a `With` clause. -/
def tablesOkAst (insideWith : Bool) : SqlAst → Bool
  | .select ctes froms _ => tablesOkCte ctes && tablesOkFrom insideWith froms
  | .union l r => tablesOkAst insideWith l && tablesOkAst insideWith r
  | .stmt _ => true
def tablesOkCte : CteList → Bool
  | .nil => true
  | .cons _ body rest => tablesOkAst true body && tablesOkCte rest
def tablesOkFrom (insideWith : Bool) : FromList → Bool
  | .nil => true
  | .table n rest => tableNameOk insideWith n && tablesOkFrom insideWith rest
  | .sub q rest => tablesOkAst insideWith q && tablesOkFrom insideWith rest
end

mutual
/-- The column walk of `_validate_tables_and_columns` (true = no raise). -/
def colsOkAst : SqlAst → Bool
  | .select ctes froms cols => colsOkCte ctes && colsOkFrom froms && cols.all colOk
  | .union l r => colsOkAst l && colsOkAst r
  | .stmt _ => true
def colsOkCte : CteList → Bool
  | .nil => true
  | .cons _ body rest => colsOkAst body && colsOkCte rest
def colsOkFrom : FromList → Bool
  | .nil => true
  | .table _ rest => colsOkFrom rest
  | .sub q rest => colsOkAst q && colsOkFrom rest
end

mutual
/-- `find_all(exp.Table)` with the `With`-ancestry flag: every table
reference in the tree, paired with whether it has a `With` ancestor. -/
def collectTables (insideWith : Bool) : SqlAst → List (List Char × Bool)
  | .select ctes froms _ => collectTablesCte ctes ++ collectTablesFrom insideWith froms
  | .union l r => collectTables insideWith l ++ collectTables insideWith r
  | .stmt _ => []
def collectTablesCte : CteList → List (List Char × Bool)
  | .nil => []
  | .cons _ body rest => collectTables true body ++ collectTablesCte rest
def collectTablesFrom (insideWith : Bool) : FromList → List (List Char × Bool)
  | .nil => []
  | .table n rest => (n, insideWith) :: collectTablesFrom insideWith rest
  | .sub q rest => collectTables insideWith q ++ collectTablesFrom insideWith rest
end

/-- Rendering of a column reference for `str(parsed_sql)`. -/
def renderCol (c : ColRef) : List Char :=
  match c.qualifier with
  | some t => t ++ ['.'] ++ c.name
  | none => c.name

/-- Rendering of a column list. -/
def renderCols (cols : List ColRef) : List Char :=
  (cols.map renderCol).foldr (fun a b => a ++ [' '] ++ b) []

mutual
/-- `str(parsed_sql)`: the SQL text `sqlglot` regenerates from the tree,
on which `_validate_sql_security` runs its keyword regexes and comment
checks. -/
def renderAst : SqlAst → List Char
  | .select ctes froms cols =>
    renderCtes ctes ++ "SELECT ".toList ++ renderCols cols ++ " FROM ".toList ++
      renderFroms froms
  | .union l r => renderAst l ++ " UNION ".toList ++ renderAst r
  | .stmt k => k
def renderCtes : CteList → List Char
  | .nil => []
  | .cons n body rest =>
    "WITH ".toList ++ n ++ " AS (".toList ++ renderAst body ++ ") ".toList ++ renderCtes rest
def renderFroms : FromList → List Char
  | .nil => []
  | .table n rest => n ++ [' '] ++ renderFroms rest
  | .sub q rest => ['('] ++ renderAst q ++ ") ".toList ++ renderFroms rest
end

/-- `_validate_sql_security` on the parsed tree: the top-level statement
must be an `exp.Select` (so `exp.Union` and every non-select statement
fail), the regenerated SQL must contain no dangerous keyword as a
standalone word and no comment marker, and the table/column walks of
`_validate_tables_and_columns` must pass. -/
def validate_sql_security_ast (ast : SqlAst) : Bool :=
  (match ast with
   | .select _ _ _ => true
   | _ => false) &&
  dangerousKeywordsV.all (fun kw => !containsWordB kw (upperL (renderAst ast))) &&
  !containsSub commentDD (renderAst ast) &&
  !containsSub commentOpen (renderAst ast) &&
  !containsSub commentClose (renderAst ast) &&
  tablesOkAst false ast && colsOkAst ast

mutual
/-- The claim's predicate for C4: a `UNION` node that does not sit inside a
common-table-expression body. -/
def hasUnionOutsideCte (insideCte : Bool) : SqlAst → Bool
  | .select ctes froms _ => hasUnionCtes ctes || hasUnionFroms insideCte froms
  | .union l r => !insideCte || hasUnionOutsideCte insideCte l || hasUnionOutsideCte insideCte r
  | .stmt _ => false
def hasUnionCtes : CteList → Bool
  | .nil => false
  | .cons _ body rest => hasUnionOutsideCte true body || hasUnionCtes rest
def hasUnionFroms (insideCte : Bool) : FromList → Bool
  | .nil => false
  | .table _ rest => hasUnionFroms insideCte rest
  | .sub q rest => hasUnionOutsideCte insideCte q || hasUnionFroms insideCte rest
end

/-- Acceptability of one collected table entry. -/
def tableEntryOk (p : List Char × Bool) : Bool :=
  hasCtePrefix (lowerL p.1) || decide (lowerL p.1 ∈ allowedTables) || p.2

mutual
theorem tablesOkAst_sound : ∀ (iw : Bool) (a : SqlAst), tablesOkAst iw a = true →
    ∀ p ∈ collectTables iw a, tableEntryOk p = true
  | iw, .select ctes froms cols, h => by
    rw [tablesOkAst] at h
    rcases Bool.and_eq_true _ _ ▸ h with ⟨h1, h2⟩
    intro p hp
    rw [collectTables] at hp
    rcases List.mem_append.mp hp with hp | hp
    · exact tablesOkCte_sound ctes h1 p hp
    · exact tablesOkFrom_sound iw froms h2 p hp
  | iw, .union l r, h => by
    rw [tablesOkAst] at h
    rcases Bool.and_eq_true _ _ ▸ h with ⟨h1, h2⟩
    intro p hp
    rw [collectTables] at hp
    rcases List.mem_append.mp hp with hp | hp
    · exact tablesOkAst_sound iw l h1 p hp
    · exact tablesOkAst_sound iw r h2 p hp
  | _, .stmt k, _ => by
    intro p hp
    rw [collectTables] at hp
    exact absurd hp (List.not_mem_nil p)
theorem tablesOkCte_sound : ∀ (cl : CteList), tablesOkCte cl = true →
    ∀ p ∈ collectTablesCte cl, tableEntryOk p = true
  | .nil, _ => by
    intro p hp
    rw [collectTablesCte] at hp
    exact absurd hp (List.not_mem_nil p)
  | .cons n body rest, h => by
    rw [tablesOkCte] at h
    rcases Bool.and_eq_true _ _ ▸ h with ⟨h1, h2⟩
    intro p hp
    rw [collectTablesCte] at hp
    rcases List.mem_append.mp hp with hp | hp
    · exact tablesOkAst_sound true body h1 p hp
    · exact tablesOkCte_sound rest h2 p hp
theorem tablesOkFrom_sound : ∀ (iw : Bool) (fl : FromList), tablesOkFrom iw fl = true →
    ∀ p ∈ collectTablesFrom iw fl, tableEntryOk p = true
  | iw, .nil, _ => by
    intro p hp
    rw [collectTablesFrom] at hp
    exact absurd hp (List.not_mem_nil p)
  | iw, .table n rest, h => by
    rw [tablesOkFrom] at h
    rcases Bool.and_eq_true _ _ ▸ h with ⟨h1, h2⟩
    intro p hp
    rw [collectTablesFrom] at hp
    rcases List.mem_cons.mp hp with rfl | hp
    · exact h1
    · exact tablesOkFrom_sound iw rest h2 p hp
  | iw, .sub q rest, h => by
    rw [tablesOkFrom] at h
    rcases Bool.and_eq_true _ _ ▸ h with ⟨h1, h2⟩
    intro p hp
    rw [collectTablesFrom] at hp
    rcases List.mem_append.mp hp with hp | hp
    · exact tablesOkAst_sound iw q h1 p hp
    · exact tablesOkFrom_sound iw rest h2 p hp
end

/-- C5: for every SQL candidate referencing a table whose name is not in
`ALLOWED_TABLES`, does not carry a reserved CTE prefix, and is not inside a
`WITH` clause (no `With` AST ancestor), `_validate_sql_security` raises
`SQLSecurityError` (returns `false`), so nothing is executed. -/
theorem c5_disallowed_table_rejected (ast : SqlAst)
    (h : ∃ p ∈ collectTables false ast, hasCtePrefix (lowerL p.1) = false ∧
      lowerL p.1 ∉ allowedTables ∧ p.2 = false) :
    validate_sql_security_ast ast = false := by
  obtain ⟨p, hp, hpre, hall, hflag⟩ := h
  by_contra hne
  have hv : validate_sql_security_ast ast = true := by
    revert hne
    cases validate_sql_security_ast ast <;> simp
  unfold validate_sql_security_ast at hv
  simp only [Bool.and_eq_true] at hv
  have htab : tablesOkAst false ast = true := hv.1.2
  have hok := tablesOkAst_sound false ast htab p hp
  rw [tableEntryOk] at hok
  rw [hpre, hflag] at hok
  simp only [Bool.false_or, Bool.or_false, decide_eq_true_eq] at hok
  exact hall hok

/-- The concrete C5 witness candidate: `SELECT id FROM users`. -/
def c5CexAst : SqlAst :=
  SqlAst.select CteList.nil (FromList.table ("users".toList) FromList.nil)
    [⟨"id".toList, none⟩]

/-- Witness for C5: the candidate `SELECT id FROM users` references the
disallowed table `users` and is rejected. -/
theorem c5_disallowed_table_rejected_witness :
    (∃ p ∈ collectTables false c5CexAst, hasCtePrefix (lowerL p.1) = false ∧
      lowerL p.1 ∉ allowedTables ∧ p.2 = false) ∧
    validate_sql_security_ast c5CexAst = false :=
  ⟨⟨("users".toList, false), by decide, by decide, by decide, rfl⟩,
    c5_disallowed_table_rejected c5CexAst
      ⟨("users".toList, false), by decide, by decide, by decide, rfl⟩⟩

/-- C4 (amended): the validator rejects every candidate whose *top-level*
statement is a `UNION` (the only-SELECT check), and for a `"how many"`
user query — and likewise for a `"show examples"`/`"show some"`/`"name a
few"` user query — any candidate containing the substring `UNION` is
replaced by the deterministic fallback in `_fix_llm_query_issues`.  (A
`UNION` nested inside a subquery of an allowed `SELECT` is not otherwise
rejected; see the counterexample.) -/
theorem c4_union_rejection_amended :
    (∀ l r : SqlAst, validate_sql_security_ast (SqlAst.union l r) = false) ∧
    (∀ sql userQuery : List Char,
      containsSub ("how many".toList) (lowerL userQuery) = true →
      containsSub ("UNION".toList) (upperL sql) = true →
      fix_llm_query_issues sql userQuery = generate_fallback_sql userQuery) ∧
    (∀ sql userQuery : List Char,
      (examplesPhrasesFix.any (fun p => containsSub p (lowerL userQuery))) = true →
      containsSub ("UNION".toList) (upperL sql) = true →
      fix_llm_query_issues sql userQuery = generate_fallback_sql userQuery) := by
  have hck : ∀ sql : List Char, containsSub ("UNION".toList) (upperL sql) = true →
      hasComplexKeyword sql = true := by
    intro sql h2
    unfold hasComplexKeyword
    simp only [List.any_eq_true]
    exact ⟨"UNION".toList, by decide, h2⟩
  refine ⟨?_, ?_, ?_⟩
  · intro l r
    unfold validate_sql_security_ast
    simp
  · intro sql q h1 h2
    unfold fix_llm_query_issues
    rw [if_pos ⟨h1, hck sql h2⟩]
  · intro sql q hex h2
    unfold fix_llm_query_issues
    by_cases hhm : containsSub ("how many".toList) (lowerL q) = true ∧
        hasComplexKeyword sql = true
    · rw [if_pos hhm]
    · rw [if_neg hhm, if_pos ⟨hex, hck sql h2⟩]

/-- The concrete C4 counterexample candidate:
`SELECT id FROM (SELECT id FROM proposals UNION SELECT id FROM proposals)`. -/
def c4CexAst : SqlAst :=
  SqlAst.select CteList.nil
    (FromList.sub
      (SqlAst.union
        (SqlAst.select CteList.nil (FromList.table ("proposals".toList) FromList.nil)
          [⟨"id".toList, none⟩])
        (SqlAst.select CteList.nil (FromList.table ("proposals".toList) FromList.nil)
          [⟨"id".toList, none⟩]))
      FromList.nil)
    [⟨"id".toList, none⟩]

/-- Counterexample for C4 as frozen: this candidate contains a `UNION`
outside any common-table-expression context, yet for the concrete user
query `"find kusama treasury proposals"` (no `"how many"` cue, no examples
cue, no `';'` to trigger the first-SELECT fix) `_fix_llm_query_issues`
returns the candidate's SQL unchanged — it is NOT replaced by the
fallback — and the validator accepts it (the `isinstance(exp.Select)`
check sees only the outer `SELECT`, no dangerous keyword or comment
occurs, and the table/column walks pass).  So the candidate is neither
rejected nor replaced before execution. -/
theorem c4_union_rejection_counterexample :
    hasUnionOutsideCte false c4CexAst = true ∧
    fix_llm_query_issues (renderAst c4CexAst) ("find kusama treasury proposals".toList) =
      renderAst c4CexAst ∧
    containsSub ("UNION".toList) (upperL (renderAst c4CexAst)) = true ∧
    validate_sql_security_ast c4CexAst = true := by
  refine ⟨by decide, by decide, by decide, by decide⟩

/-- Witness for the amended C4 theorem at concrete inputs, exercising both
fallback arms. -/
theorem c4_union_rejection_amended_witness :
    validate_sql_security_ast
      (SqlAst.union
        (SqlAst.select CteList.nil (FromList.table ("proposals".toList) FromList.nil) [])
        (SqlAst.select CteList.nil (FromList.table ("proposals".toList) FromList.nil) [])) =
      false ∧
    fix_llm_query_issues ("SELECT id FROM proposals UNION SELECT id FROM proposals".toList)
        ("how many proposals are there?".toList) =
      generate_fallback_sql ("how many proposals are there?".toList) ∧
    fix_llm_query_issues ("SELECT id FROM proposals UNION SELECT id FROM proposals".toList)
        ("show some treasury proposals".toList) =
      generate_fallback_sql ("show some treasury proposals".toList) :=
  ⟨c4_union_rejection_amended.1 _ _,
    c4_union_rejection_amended.2.1 _ _ (by decide) (by decide),
    c4_union_rejection_amended.2.2 _ _ (by decide) (by decide)⟩

/-! ## `retrieval.py`: Reciprocal Rank Fusion (`_fuse_with_rrf`)

Python dicts are modelled as insertion-ordered association lists.  Input
rows are projected onto their `'id'` field (fusion reads nothing else from
a row; the scores it attaches are modelled as the second component).
Scores `1.0 / (k + i + 1)` are exact rationals. -/

/-- Python dict assignment `m[k] = v`: replace in place, else append. -/
def dictInsert {κ ν : Type} [DecidableEq κ] (m : List (κ × ν)) (k : κ) (v : ν) :
    List (κ × ν) :=
  match m with
  | [] => [(k, v)]
  | (k', v') :: rest => if k' = k then (k', v) :: rest else (k', v') :: dictInsert rest k v

/-- Python dict lookup `m.get(k)`. -/
def dictLookup {κ ν : Type} [DecidableEq κ] (m : List (κ × ν)) (k : κ) : Option ν :=
  match m with
  | [] => none
  | (k', v) :: rest => if k' = k then some v else dictLookup rest k

/-- Python in-place update `m[k] = f(m[k])` (no-op when `k` is absent). -/
def dictModify {κ ν : Type} [DecidableEq κ] (m : List (κ × ν)) (k : κ) (f : ν → ν) :
    List (κ × ν) :=
  match m with
  | [] => []
  | (k', v) :: rest => if k' = k then (k', f v) :: rest else (k', v) :: dictModify rest k f

/-- The RRF contribution `1.0 / (k + i + 1)` of zero-based rank `i`. -/
def rrf_score (k i : Nat) : ℚ := 1 / ((k : ℚ) + (i : ℚ) + 1)

/-- The score-map loops of `_fuse_with_rrf`
(`for i, result in enumerate(...): scores[result['id']] = 1.0/(k+i+1)`),
used for both `lexical_scores` and `vector_scores`. -/
def rrfScoresMap (k : Nat) : Nat → List Nat → List (Nat × ℚ) → List (Nat × ℚ)
  | _, [], m => m
  | i, id :: rest, m => rrfScoresMap k (i + 1) rest (dictInsert m id (rrf_score k i))

/-- The first `all_proposals` loop: every lexical row is inserted with
`rrf_score = lexical_scores.get(id, 0.0)`. -/
def fuse_loop_lexical (ls : List (Nat × ℚ)) : List Nat → List (Nat × ℚ) → List (Nat × ℚ)
  | [], m => m
  | id :: rest, m => fuse_loop_lexical ls rest (dictInsert m id ((dictLookup ls id).getD 0))

/-- The second `all_proposals` loop: a vector row already present gets
`rrf_score += vector_scores.get(id, 0.0)`, a new one is inserted with
`rrf_score = vector_scores.get(id, 0.0)`. -/
def fuse_loop_vector (vs : List (Nat × ℚ)) : List Nat → List (Nat × ℚ) → List (Nat × ℚ)
  | [], m => m
  | id :: rest, m =>
    fuse_loop_vector vs rest
      (if (dictLookup m id).isSome then dictModify m id (fun s => s + (dictLookup vs id).getD 0)
       else dictInsert m id ((dictLookup vs id).getD 0))

/-- Stable insertion for descending sort: an element is placed before the
first entry whose score it meets or exceeds (equal keys keep their
original relative order, as Python's stable `list.sort` does). -/
def insertDesc (x : Nat × ℚ) : List (Nat × ℚ) → List (Nat × ℚ)
  | [] => [x]
  | y :: rest => if y.2 ≤ x.2 then x :: y :: rest else y :: insertDesc x rest

/-- `fused_results.sort(key=lambda x: x['rrf_score'], reverse=True)`: a
stable descending sort by score (any stable sort computes the same list,
so insertion sort models Python's Timsort exactly). -/
def sortByScoreDesc : List (Nat × ℚ) → List (Nat × ℚ)
  | [] => []
  | x :: xs => insertDesc x (sortByScoreDesc xs)

/-- `_fuse_with_rrf` from `retrieval.py` on the id-projections of the two
ranked result lists. -/
def fuse_with_rrf (k : Nat) (lex vec : List Nat) : List (Nat × ℚ) :=
  sortByScoreDesc
    (fuse_loop_vector (rrfScoresMap k 0 vec []) vec
      (fuse_loop_lexical (rrfScoresMap k 0 lex []) lex []))

/-- Zero-based rank of `id` in a ranked list (`none` when absent). -/
def rankOf (id : Nat) : List Nat → Option Nat
  | [] => none
  | x :: rest => if x = id then some 0 else (rankOf id rest).map (· + 1)

/-- The contribution of one ranked list to a document's fused score, as the
spec words it: `1/(k+r+1)` at zero-based rank `r`, `0` when absent. -/
def rrfContribution (k : Nat) (l : List Nat) (id : Nat) : ℚ :=
  match rankOf id l with
  | some r => rrf_score k r
  | none => 0

/-! ### Dictionary lemmas -/

theorem dictLookup_dictInsert_self {κ ν : Type} [DecidableEq κ]
    (m : List (κ × ν)) (k : κ) (v : ν) : dictLookup (dictInsert m k v) k = some v := by
  induction m with
  | nil => simp [dictInsert, dictLookup]
  | cons p rest ih =>
    rcases p with ⟨k', v'⟩
    by_cases h : k' = k
    · simp [dictInsert, dictLookup, h]
    · simp [dictInsert, dictLookup, h, ih]

theorem dictLookup_dictInsert_ne {κ ν : Type} [DecidableEq κ]
    (m : List (κ × ν)) (k k' : κ) (v : ν) (h : k' ≠ k) :
    dictLookup (dictInsert m k v) k' = dictLookup m k' := by
  induction m with
  | nil =>
    have h' : ¬(k = k') := fun he => h he.symm
    simp [dictInsert, dictLookup, h']
  | cons p rest ih =>
    rcases p with ⟨k0, v0⟩
    by_cases h0 : k0 = k
    · rw [dictInsert, if_pos h0]
      show (if k0 = k' then some v else dictLookup rest k') =
        (if k0 = k' then some v0 else dictLookup rest k')
      have h' : ¬(k0 = k') := fun he => h (he.symm.trans h0)
      rw [if_neg h', if_neg h']
    · rw [dictInsert, if_neg h0]
      show (if k0 = k' then some v0 else dictLookup (dictInsert rest k v) k') =
        (if k0 = k' then some v0 else dictLookup rest k')
      by_cases h1 : k0 = k'
      · rw [if_pos h1, if_pos h1]
      · rw [if_neg h1, if_neg h1, ih]

theorem dictLookup_dictModify_self {κ ν : Type} [DecidableEq κ]
    (m : List (κ × ν)) (k : κ) (f : ν → ν) :
    dictLookup (dictModify m k f) k = (dictLookup m k).map f := by
  induction m with
  | nil => simp [dictModify, dictLookup]
  | cons p rest ih =>
    rcases p with ⟨k', v⟩
    by_cases h : k' = k
    · simp [dictModify, dictLookup, h]
    · simp [dictModify, dictLookup, h, ih]

theorem dictLookup_dictModify_ne {κ ν : Type} [DecidableEq κ]
    (m : List (κ × ν)) (k k' : κ) (f : ν → ν) (h : k' ≠ k) :
    dictLookup (dictModify m k f) k' = dictLookup m k' := by
  induction m with
  | nil => simp [dictModify, dictLookup]
  | cons p rest ih =>
    rcases p with ⟨k0, v0⟩
    by_cases h0 : k0 = k
    · rw [dictModify, if_pos h0]
      show (if k0 = k' then some (f v0) else dictLookup rest k') =
        (if k0 = k' then some v0 else dictLookup rest k')
      have h' : ¬(k0 = k') := fun he => h (he.symm.trans h0)
      rw [if_neg h', if_neg h']
    · rw [dictModify, if_neg h0]
      show (if k0 = k' then some v0 else dictLookup (dictModify rest k f) k') =
        (if k0 = k' then some v0 else dictLookup rest k')
      by_cases h1 : k0 = k'
      · rw [if_pos h1, if_pos h1]
      · rw [if_neg h1, if_neg h1, ih]

theorem dictInsert_eq_append_of_not_mem {κ ν : Type} [DecidableEq κ]
    (m : List (κ × ν)) (k : κ) (v : ν) (h : k ∉ m.map Prod.fst) :
    dictInsert m k v = m ++ [(k, v)] := by
  induction m with
  | nil => simp [dictInsert]
  | cons p rest ih =>
    rcases p with ⟨k', v'⟩
    simp only [List.map_cons, List.mem_cons] at h
    push_neg at h
    have h' : ¬(k' = k) := fun he => h.1 he.symm
    rw [dictInsert, if_neg h', ih h.2]
    rfl

theorem dictInsert_fst_of_mem {κ ν : Type} [DecidableEq κ]
    (m : List (κ × ν)) (k : κ) (v : ν) (h : k ∈ m.map Prod.fst) :
    (dictInsert m k v).map Prod.fst = m.map Prod.fst := by
  induction m with
  | nil => simp at h
  | cons p rest ih =>
    rcases p with ⟨k', v'⟩
    by_cases h0 : k' = k
    · rw [dictInsert, if_pos h0]
      simp
    · have h1 : k ∈ rest.map Prod.fst := by
        simp only [List.map_cons, List.mem_cons] at h
        rcases h with h | h
        · exact absurd h.symm h0
        · exact h
      rw [dictInsert, if_neg h0]
      simp [ih h1]

theorem dictModify_fst {κ ν : Type} [DecidableEq κ]
    (m : List (κ × ν)) (k : κ) (f : ν → ν) :
    (dictModify m k f).map Prod.fst = m.map Prod.fst := by
  induction m with
  | nil => simp [dictModify]
  | cons p rest ih =>
    rcases p with ⟨k', v⟩
    by_cases h : k' = k
    · simp [dictModify, h]
    · simp [dictModify, h, ih]

theorem keysNodup_dictInsert {κ ν : Type} [DecidableEq κ]
    (m : List (κ × ν)) (k : κ) (v : ν) (h : (m.map Prod.fst).Nodup) :
    ((dictInsert m k v).map Prod.fst).Nodup := by
  by_cases hk : k ∈ m.map Prod.fst
  · rw [dictInsert_fst_of_mem m k v hk]
    exact h
  · rw [dictInsert_eq_append_of_not_mem m k v hk]
    simp only [List.map_append, List.map_cons, List.map_nil]
    simp [List.nodup_append, h, hk]

theorem dictLookup_mem {κ ν : Type} [DecidableEq κ]
    (m : List (κ × ν)) (k : κ) (v : ν) (h : dictLookup m k = some v) : (k, v) ∈ m := by
  induction m with
  | nil => simp [dictLookup] at h
  | cons p rest ih =>
    rcases p with ⟨k', v'⟩
    by_cases h0 : k' = k
    · subst h0
      rw [dictLookup, if_pos rfl] at h
      injection h with h
      subst h
      exact List.mem_cons_self _ _
    · rw [dictLookup, if_neg h0] at h
      exact List.mem_cons_of_mem _ (ih h)

theorem mem_dictLookup_of_keysNodup {κ ν : Type} [DecidableEq κ]
    (m : List (κ × ν)) (k : κ) (v : ν) (hnd : (m.map Prod.fst).Nodup)
    (h : (k, v) ∈ m) : dictLookup m k = some v := by
  induction m with
  | nil => simp at h
  | cons p rest ih =>
    rcases p with ⟨k', v'⟩
    simp only [List.map_cons, List.nodup_cons] at hnd
    rcases List.mem_cons.mp h with h0 | h0
    · injection h0 with h1 h2
      subst h1; subst h2
      simp [dictLookup]
    · have hk : k' ≠ k := by
        rintro rfl
        exact hnd.1 (List.mem_map.mpr ⟨(k', v), h0, rfl⟩)
      rw [dictLookup, if_neg hk]
      exact ih hnd.2 h0

theorem mem_dictInsert {κ ν : Type} [DecidableEq κ]
    (m : List (κ × ν)) (k : κ) (v : ν) (p : κ × ν) (h : p ∈ dictInsert m k v) :
    p ∈ m ∨ p = (k, v) := by
  induction m with
  | nil => simp [dictInsert] at h; exact Or.inr h
  | cons q rest ih =>
    rcases q with ⟨k', v'⟩
    by_cases h0 : k' = k
    · rw [dictInsert, if_pos h0] at h
      rcases List.mem_cons.mp h with rfl | h1
      · subst h0
        exact Or.inr rfl
      · exact Or.inl (List.mem_cons_of_mem _ h1)
    · rw [dictInsert, if_neg h0] at h
      rcases List.mem_cons.mp h with rfl | h1
      · exact Or.inl (List.mem_cons_self _ _)
      · rcases ih h1 with h2 | h2
        · exact Or.inl (List.mem_cons_of_mem _ h2)
        · exact Or.inr h2

theorem mem_dictModify {κ ν : Type} [DecidableEq κ]
    (m : List (κ × ν)) (k : κ) (f : ν → ν) (p : κ × ν) (h : p ∈ dictModify m k f) :
    p ∈ m ∨ ∃ v, (k, v) ∈ m ∧ p = (k, f v) := by
  induction m with
  | nil => simp [dictModify] at h
  | cons q rest ih =>
    rcases q with ⟨k', v'⟩
    by_cases h0 : k' = k
    · rw [dictModify, if_pos h0] at h
      rcases List.mem_cons.mp h with rfl | h1
      · subst h0
        exact Or.inr ⟨v', List.mem_cons_self _ _, rfl⟩
      · exact Or.inl (List.mem_cons_of_mem _ h1)
    · rw [dictModify, if_neg h0] at h
      rcases List.mem_cons.mp h with rfl | h1
      · exact Or.inl (List.mem_cons_self _ _)
      · rcases ih h1 with h2 | ⟨v, hv, rfl⟩
        · exact Or.inl (List.mem_cons_of_mem _ h2)
        · exact Or.inr ⟨v, List.mem_cons_of_mem _ hv, rfl⟩

/-! ### Characterising the fusion loops -/

theorem rankOf_eq_none_iff (id : Nat) (l : List Nat) : rankOf id l = none ↔ id ∉ l := by
  induction l with
  | nil => simp [rankOf]
  | cons x rest ih =>
    by_cases h : x = id
    · simp [rankOf, h]
    · rw [rankOf, if_neg h, List.mem_cons]
      constructor
      · intro hc
        rcases hr : rankOf id rest with _ | r
        · push_neg
          exact ⟨fun he => h he.symm, ih.mp hr⟩
        · rw [hr] at hc
          simp at hc
      · intro hc
        push_neg at hc
        rw [ih.mpr hc.2]
        rfl

theorem rankOf_isSome_of_mem (id : Nat) (l : List Nat) (h : id ∈ l) :
    ∃ r, rankOf id l = some r := by
  rcases hr : rankOf id l with _ | r
  · exact absurd ((rankOf_eq_none_iff id l).mp hr) (by simp [h])
  · exact ⟨r, rfl⟩

theorem dictLookup_rrfScoresMap_not_mem (k : Nat) (id : Nat) :
    ∀ (ids : List Nat) (i : Nat) (m : List (Nat × ℚ)), id ∉ ids →
      dictLookup (rrfScoresMap k i ids m) id = dictLookup m id := by
  intro ids
  induction ids with
  | nil => intro i m _; rfl
  | cons x rest ih =>
    intro i m h
    simp only [List.mem_cons] at h
    push_neg at h
    rw [rrfScoresMap, ih (i + 1) _ h.2, dictLookup_dictInsert_ne _ _ _ _ h.1]

theorem dictLookup_rrfScoresMap_mem (k : Nat) (id : Nat) :
    ∀ (ids : List Nat) (i : Nat) (m : List (Nat × ℚ)) (r : Nat), ids.Nodup →
      rankOf id ids = some r →
      dictLookup (rrfScoresMap k i ids m) id = some (rrf_score k (i + r)) := by
  intro ids
  induction ids with
  | nil => intro i m r _ hr; simp [rankOf] at hr
  | cons x rest ih =>
    intro i m r hnd hr
    simp only [List.nodup_cons] at hnd
    by_cases hx : x = id
    · subst hx
      rw [rankOf, if_pos rfl] at hr
      injection hr with hr
      subst hr
      rw [rrfScoresMap, dictLookup_rrfScoresMap_not_mem k x rest (i + 1) _ hnd.1,
        dictLookup_dictInsert_self, Nat.add_zero]
    · rw [rankOf, if_neg hx] at hr
      rcases hr' : rankOf id rest with _ | r'
      · rw [hr'] at hr; simp at hr
      · rw [hr'] at hr
        simp only [Option.map_some'] at hr
        injection hr with hr
        subst hr
        rw [rrfScoresMap, ih (i + 1) _ r' hnd.2 hr']
        have harith : i + 1 + r' = i + (r' + 1) := by omega
        rw [harith]

theorem dictLookup_fuse_loop_lexical_not_mem (ls : List (Nat × ℚ)) (id : Nat) :
    ∀ (ids : List Nat) (m : List (Nat × ℚ)), id ∉ ids →
      dictLookup (fuse_loop_lexical ls ids m) id = dictLookup m id := by
  intro ids
  induction ids with
  | nil => intro m _; rfl
  | cons x rest ih =>
    intro m h
    simp only [List.mem_cons] at h
    push_neg at h
    rw [fuse_loop_lexical, ih _ h.2, dictLookup_dictInsert_ne _ _ _ _ h.1]

theorem dictLookup_fuse_loop_lexical_mem (ls : List (Nat × ℚ)) (id : Nat) :
    ∀ (ids : List Nat) (m : List (Nat × ℚ)), ids.Nodup → id ∈ ids →
      dictLookup (fuse_loop_lexical ls ids m) id = some ((dictLookup ls id).getD 0) := by
  intro ids
  induction ids with
  | nil => intro m _ h; simp at h
  | cons x rest ih =>
    intro m hnd hmem
    simp only [List.nodup_cons] at hnd
    by_cases hx : x = id
    · subst hx
      rw [fuse_loop_lexical, dictLookup_fuse_loop_lexical_not_mem ls x rest _ hnd.1,
        dictLookup_dictInsert_self]
    · rcases List.mem_cons.mp hmem with he | hmem'
      · exact absurd he.symm hx
      · rw [fuse_loop_lexical, ih _ hnd.2 hmem']

theorem dictLookup_fuse_loop_vector_not_mem (vs : List (Nat × ℚ)) (id : Nat) :
    ∀ (ids : List Nat) (m : List (Nat × ℚ)), id ∉ ids →
      dictLookup (fuse_loop_vector vs ids m) id = dictLookup m id := by
  intro ids
  induction ids with
  | nil => intro m _; rfl
  | cons x rest ih =>
    intro m h
    simp only [List.mem_cons] at h
    push_neg at h
    rw [fuse_loop_vector, ih _ h.2]
    split
    · exact dictLookup_dictModify_ne _ _ _ _ h.1
    · exact dictLookup_dictInsert_ne _ _ _ _ h.1

theorem dictLookup_fuse_loop_vector_mem (vs : List (Nat × ℚ)) (id : Nat) :
    ∀ (ids : List Nat) (m : List (Nat × ℚ)), ids.Nodup → id ∈ ids →
      dictLookup (fuse_loop_vector vs ids m) id =
        some ((dictLookup m id).getD 0 + (dictLookup vs id).getD 0) := by
  intro ids
  induction ids with
  | nil => intro m _ h; simp at h
  | cons x rest ih =>
    intro m hnd hmem
    simp only [List.nodup_cons] at hnd
    by_cases hx : x = id
    · subst hx
      rw [fuse_loop_vector, dictLookup_fuse_loop_vector_not_mem vs x rest _ hnd.1]
      rcases hm : dictLookup m x with _ | v
      · rw [if_neg (by simp [hm])]
        rw [dictLookup_dictInsert_self]
        simp
      · rw [if_pos (by simp [hm])]
        rw [dictLookup_dictModify_self, hm]
        simp
    · rcases List.mem_cons.mp hmem with he | hmem'
      · exact absurd he.symm hx
      · rw [fuse_loop_vector]
        have hkey : dictLookup (if (dictLookup m x).isSome then
            dictModify m x (fun s => s + (dictLookup vs x).getD 0)
            else dictInsert m x ((dictLookup vs x).getD 0)) id = dictLookup m id := by
          split
          · exact dictLookup_dictModify_ne _ _ _ _ (fun he => hx he.symm)
          · exact dictLookup_dictInsert_ne _ _ _ _ (fun he => hx he.symm)
        rw [ih _ hnd.2 hmem', hkey]

/-! ### Keys stay duplicate-free; values stay non-negative -/

theorem keysNodup_fuse_loop_lexical (ls : List (Nat × ℚ)) :
    ∀ (ids : List Nat) (m : List (Nat × ℚ)), (m.map Prod.fst).Nodup →
      ((fuse_loop_lexical ls ids m).map Prod.fst).Nodup := by
  intro ids
  induction ids with
  | nil => intro m h; exact h
  | cons x rest ih =>
    intro m h
    rw [fuse_loop_lexical]
    exact ih _ (keysNodup_dictInsert _ _ _ h)

theorem keysNodup_fuse_loop_vector (vs : List (Nat × ℚ)) :
    ∀ (ids : List Nat) (m : List (Nat × ℚ)), (m.map Prod.fst).Nodup →
      ((fuse_loop_vector vs ids m).map Prod.fst).Nodup := by
  intro ids
  induction ids with
  | nil => intro m h; exact h
  | cons x rest ih =>
    intro m h
    rw [fuse_loop_vector]
    apply ih
    split
    · rw [dictModify_fst]
      exact h
    · exact keysNodup_dictInsert _ _ _ h

theorem rrf_score_nonneg (k i : Nat) : 0 ≤ rrf_score k i := by
  unfold rrf_score
  positivity

theorem dictLookup_getD_nonneg (m : List (Nat × ℚ))
    (h : ∀ p ∈ m, 0 ≤ p.2) (k : Nat) : 0 ≤ (dictLookup m k).getD 0 := by
  rcases hl : dictLookup m k with _ | v
  · simp
  · simpa using h (k, v) (dictLookup_mem m k v hl)

theorem rrfScoresMap_values_nonneg (k : Nat) :
    ∀ (ids : List Nat) (i : Nat) (m : List (Nat × ℚ)), (∀ p ∈ m, 0 ≤ p.2) →
      ∀ p ∈ rrfScoresMap k i ids m, 0 ≤ p.2 := by
  intro ids
  induction ids with
  | nil => intro i m h; exact h
  | cons x rest ih =>
    intro i m h
    rw [rrfScoresMap]
    apply ih
    intro p hp
    rcases mem_dictInsert _ _ _ _ hp with hp | rfl
    · exact h p hp
    · exact rrf_score_nonneg k i

theorem fuse_loop_lexical_values_nonneg (ls : List (Nat × ℚ)) (hls : ∀ p ∈ ls, 0 ≤ p.2) :
    ∀ (ids : List Nat) (m : List (Nat × ℚ)), (∀ p ∈ m, 0 ≤ p.2) →
      ∀ p ∈ fuse_loop_lexical ls ids m, 0 ≤ p.2 := by
  intro ids
  induction ids with
  | nil => intro m h; exact h
  | cons x rest ih =>
    intro m h
    rw [fuse_loop_lexical]
    apply ih
    intro p hp
    rcases mem_dictInsert _ _ _ _ hp with hp | rfl
    · exact h p hp
    · exact dictLookup_getD_nonneg ls hls x

theorem fuse_loop_vector_values_nonneg (vs : List (Nat × ℚ)) (hvs : ∀ p ∈ vs, 0 ≤ p.2) :
    ∀ (ids : List Nat) (m : List (Nat × ℚ)), (∀ p ∈ m, 0 ≤ p.2) →
      ∀ p ∈ fuse_loop_vector vs ids m, 0 ≤ p.2 := by
  intro ids
  induction ids with
  | nil => intro m h; exact h
  | cons x rest ih =>
    intro m h
    rw [fuse_loop_vector]
    apply ih
    intro p hp
    split at hp
    · rcases mem_dictModify _ _ _ _ hp with hp | ⟨v, hv, rfl⟩
      · exact h p hp
      · have h1 : 0 ≤ v := by simpa using h (x, v) hv
        have h2 : 0 ≤ (dictLookup vs x).getD 0 := dictLookup_getD_nonneg vs hvs x
        simpa using add_nonneg h1 h2
    · rcases mem_dictInsert _ _ _ _ hp with hp | rfl
      · exact h p hp
      · exact dictLookup_getD_nonneg vs hvs x

/-! ### The descending sort -/

theorem mem_insertDesc (x z : Nat × ℚ) (l : List (Nat × ℚ)) :
    z ∈ insertDesc x l ↔ z = x ∨ z ∈ l := by
  induction l with
  | nil => simp [insertDesc]
  | cons y rest ih =>
    rw [insertDesc]
    split
    · simp [List.mem_cons]
    · rw [List.mem_cons, ih, List.mem_cons]
      tauto

theorem insertDesc_perm (x : Nat × ℚ) (l : List (Nat × ℚ)) :
    (insertDesc x l).Perm (x :: l) := by
  induction l with
  | nil => simp [insertDesc]
  | cons y rest ih =>
    rw [insertDesc]
    split
    · exact List.Perm.refl _
    · exact (List.Perm.cons y ih).trans (List.Perm.swap x y rest)

theorem sortByScoreDesc_perm (l : List (Nat × ℚ)) : (sortByScoreDesc l).Perm l := by
  induction l with
  | nil => simp [sortByScoreDesc]
  | cons x xs ih =>
    rw [sortByScoreDesc]
    exact (insertDesc_perm x (sortByScoreDesc xs)).trans (List.Perm.cons x ih)

theorem pairwise_insertDesc (x : Nat × ℚ) (l : List (Nat × ℚ))
    (h : List.Pairwise (fun a b : Nat × ℚ => b.2 ≤ a.2) l) :
    List.Pairwise (fun a b : Nat × ℚ => b.2 ≤ a.2) (insertDesc x l) := by
  induction l with
  | nil => simp [insertDesc]
  | cons y rest ih =>
    rw [insertDesc]
    rcases List.pairwise_cons.mp h with ⟨hy, hrest⟩
    split
    · rename_i hle
      refine List.pairwise_cons.mpr ⟨?_, h⟩
      intro z hz
      rcases List.mem_cons.mp hz with rfl | hz
      · exact hle
      · exact (hy z hz).trans hle
    · rename_i hgt
      push_neg at hgt
      refine List.pairwise_cons.mpr ⟨?_, ih hrest⟩
      intro z hz
      rcases (mem_insertDesc x z rest).mp hz with rfl | hz
      · exact le_of_lt hgt
      · exact hy z hz

theorem sortByScoreDesc_pairwise (l : List (Nat × ℚ)) :
    List.Pairwise (fun a b : Nat × ℚ => b.2 ≤ a.2) (sortByScoreDesc l) := by
  induction l with
  | nil => simp [sortByScoreDesc]
  | cons x xs ih =>
    rw [sortByScoreDesc]
    exact pairwise_insertDesc x _ ih

theorem sortByScoreDesc_eq_self (l : List (Nat × ℚ))
    (h : List.Pairwise (fun a b : Nat × ℚ => b.2 ≤ a.2) l) : sortByScoreDesc l = l := by
  induction l with
  | nil => rfl
  | cons x xs ih =>
    rcases List.pairwise_cons.mp h with ⟨hx, hxs⟩
    rw [sortByScoreDesc, ih hxs]
    cases xs with
    | nil => rfl
    | cons y rest =>
      rw [insertDesc, if_pos (hx y (List.mem_cons_self _ _))]

/-! ### The fused score of every document -/

theorem fuse_pre_sort_lookup (k : Nat) (lex vec : List Nat) (hl : lex.Nodup)
    (hv : vec.Nodup) (id : Nat) (hid : id ∈ lex ∨ id ∈ vec) :
    dictLookup (fuse_loop_vector (rrfScoresMap k 0 vec []) vec
        (fuse_loop_lexical (rrfScoresMap k 0 lex []) lex [])) id =
      some (rrfContribution k lex id + rrfContribution k vec id) := by
  by_cases hlex : id ∈ lex
  · obtain ⟨r, hr⟩ := rankOf_isSome_of_mem id lex hlex
    have hls : dictLookup (rrfScoresMap k 0 lex []) id = some (rrf_score k r) := by
      have := dictLookup_rrfScoresMap_mem k id lex 0 [] r hl hr
      rwa [Nat.zero_add] at this
    have hm1 : dictLookup (fuse_loop_lexical (rrfScoresMap k 0 lex []) lex []) id =
        some (rrf_score k r) := by
      rw [dictLookup_fuse_loop_lexical_mem _ _ lex [] hl hlex, hls]
      rfl
    have hcl : rrfContribution k lex id = rrf_score k r := by
      rw [rrfContribution, hr]
    by_cases hvec : id ∈ vec
    · obtain ⟨rv, hrv⟩ := rankOf_isSome_of_mem id vec hvec
      have hvs : dictLookup (rrfScoresMap k 0 vec []) id = some (rrf_score k rv) := by
        have := dictLookup_rrfScoresMap_mem k id vec 0 [] rv hv hrv
        rwa [Nat.zero_add] at this
      have hcv : rrfContribution k vec id = rrf_score k rv := by
        rw [rrfContribution, hrv]
      rw [dictLookup_fuse_loop_vector_mem _ _ vec _ hv hvec, hm1, hvs, hcl, hcv]
      rfl
    · have hcv : rrfContribution k vec id = 0 := by
        rw [rrfContribution, (rankOf_eq_none_iff id vec).mpr hvec]
      rw [dictLookup_fuse_loop_vector_not_mem _ _ vec _ hvec, hm1, hcl, hcv, add_zero]
  · have hm1 : dictLookup (fuse_loop_lexical (rrfScoresMap k 0 lex []) lex []) id = none := by
      rw [dictLookup_fuse_loop_lexical_not_mem _ _ lex [] hlex]
      rfl
    have hcl : rrfContribution k lex id = 0 := by
      rw [rrfContribution, (rankOf_eq_none_iff id lex).mpr hlex]
    have hvec : id ∈ vec := hid.resolve_left hlex
    obtain ⟨rv, hrv⟩ := rankOf_isSome_of_mem id vec hvec
    have hvs : dictLookup (rrfScoresMap k 0 vec []) id = some (rrf_score k rv) := by
      have := dictLookup_rrfScoresMap_mem k id vec 0 [] rv hv hrv
      rwa [Nat.zero_add] at this
    have hcv : rrfContribution k vec id = rrf_score k rv := by
      rw [rrfContribution, hrv]
    rw [dictLookup_fuse_loop_vector_mem _ _ vec _ hv hvec, hm1, hvs, hcl, hcv]
    simp

/-- C3: with `k = 60`, `_fuse_with_rrf` returns each document id at most
once, every fused score is non-negative, the output is sorted by fused
score in descending order, and (for duplicate-free input id lists, which
the primary-keyed database queries guarantee) each document appearing in
either list appears with fused score equal to the sum of its per-list
contributions `1/(60 + r + 1)` (0 for a list it is absent from). -/
theorem c3_rrf_fusion_properties (lex vec : List Nat) :
    ((fuse_with_rrf 60 lex vec).map Prod.fst).Nodup ∧
    (∀ p ∈ fuse_with_rrf 60 lex vec, 0 ≤ p.2) ∧
    List.Pairwise (fun a b : Nat × ℚ => b.2 ≤ a.2) (fuse_with_rrf 60 lex vec) ∧
    (lex.Nodup → vec.Nodup → ∀ id, id ∈ lex ∨ id ∈ vec →
      (id, rrfContribution 60 lex id + rrfContribution 60 vec id) ∈
        fuse_with_rrf 60 lex vec) := by
  have hlexmap : ∀ p ∈ rrfScoresMap 60 0 lex [], 0 ≤ p.2 :=
    rrfScoresMap_values_nonneg 60 lex 0 [] (by simp)
  have hvecmap : ∀ p ∈ rrfScoresMap 60 0 vec [], 0 ≤ p.2 :=
    rrfScoresMap_values_nonneg 60 vec 0 [] (by simp)
  have hm1nn : ∀ p ∈ fuse_loop_lexical (rrfScoresMap 60 0 lex []) lex [], 0 ≤ p.2 :=
    fuse_loop_lexical_values_nonneg _ hlexmap lex [] (by simp)
  have hm2nn : ∀ p ∈ fuse_loop_vector (rrfScoresMap 60 0 vec []) vec
      (fuse_loop_lexical (rrfScoresMap 60 0 lex []) lex []), 0 ≤ p.2 :=
    fuse_loop_vector_values_nonneg _ hvecmap vec _ hm1nn
  have hperm := sortByScoreDesc_perm (fuse_loop_vector (rrfScoresMap 60 0 vec []) vec
    (fuse_loop_lexical (rrfScoresMap 60 0 lex []) lex []))
  refine ⟨?_, ?_, ?_, ?_⟩
  · have hnd2 : ((fuse_loop_vector (rrfScoresMap 60 0 vec []) vec
        (fuse_loop_lexical (rrfScoresMap 60 0 lex []) lex [])).map Prod.fst).Nodup :=
      keysNodup_fuse_loop_vector _ vec _
        (keysNodup_fuse_loop_lexical _ lex [] (by simp))
    exact ((hperm.map Prod.fst).nodup_iff).mpr hnd2
  · intro p hp
    exact hm2nn p (hperm.mem_iff.mp hp)
  · exact sortByScoreDesc_pairwise _
  · intro hl hv id hid
    have hlk := fuse_pre_sort_lookup 60 lex vec hl hv id hid
    exact hperm.mem_iff.mpr (dictLookup_mem _ _ _ hlk)

/-- Witness for C3 at concrete ranked lists. -/
theorem c3_rrf_fusion_properties_witness :
    ([1, 2] : List Nat).Nodup ∧ ([2, 3] : List Nat).Nodup ∧ ((2 : Nat) ∈ [1, 2] ∨ (2 : Nat) ∈ [2, 3]) ∧
    (2, rrfContribution 60 [1, 2] 2 + rrfContribution 60 [2, 3] 2) ∈ fuse_with_rrf 60 [1, 2] [2, 3] :=
  ⟨by decide, by decide, Or.inl (by decide),
    (c3_rrf_fusion_properties [1, 2] [2, 3]).2.2.2 (by decide) (by decide) 2 (Or.inl (by decide))⟩

/-! ### Positional characterisation of fusion (for idempotence) -/

/-- The expected `all_proposals` contents for a duplicate-free input list:
entry `i` carries score `1/(k+i+1)`. -/
def rrfEntries (k : Nat) : Nat → List Nat → List (Nat × ℚ)
  | _, [] => []
  | i, x :: rest => (x, rrf_score k i) :: rrfEntries k (i + 1) rest

theorem rrfEntries_map_fst (k : Nat) : ∀ (i : Nat) (L : List Nat),
    (rrfEntries k i L).map Prod.fst = L := by
  intro i L
  induction L generalizing i with
  | nil => rfl
  | cons x rest ih => simp [rrfEntries, ih]

theorem rankOf_mem_of_some (id : Nat) (l : List Nat) (r : Nat) (h : rankOf id l = some r) :
    id ∈ l := by
  by_contra hmem
  rw [(rankOf_eq_none_iff id l).mpr hmem] at h
  exact absurd h (by simp)

theorem mem_rrfEntries_rank (k : Nat) : ∀ (L : List Nat) (i : Nat) (p : Nat × ℚ),
    L.Nodup → p ∈ rrfEntries k i L →
    ∃ r, rankOf p.1 L = some r ∧ p.2 = rrf_score k (i + r) := by
  intro L
  induction L with
  | nil => intro i p _ hp; simp [rrfEntries] at hp
  | cons x rest ih =>
    intro i p hnd hp
    simp only [List.nodup_cons] at hnd
    rw [rrfEntries] at hp
    rcases List.mem_cons.mp hp with rfl | hp
    · exact ⟨0, by rw [rankOf, if_pos rfl], by rw [Nat.add_zero]⟩
    · obtain ⟨r', hr', hs⟩ := ih (i + 1) p hnd.2 hp
      have hpx : ¬(x = p.1) := by
        rintro rfl
        exact hnd.1 (rankOf_mem_of_some _ _ _ hr')
      refine ⟨r' + 1, ?_, ?_⟩
      · rw [rankOf, if_neg hpx, hr']
        rfl
      · rw [hs]
        have : i + 1 + r' = i + (r' + 1) := by omega
        rw [this]

theorem mem_rrfEntries_score (k : Nat) : ∀ (L : List Nat) (i : Nat) (p : Nat × ℚ),
    p ∈ rrfEntries k i L → ∃ j, i ≤ j ∧ p.2 = rrf_score k j := by
  intro L
  induction L with
  | nil => intro i p hp; simp [rrfEntries] at hp
  | cons x rest ih =>
    intro i p hp
    rw [rrfEntries] at hp
    rcases List.mem_cons.mp hp with rfl | hp
    · exact ⟨i, le_refl i, rfl⟩
    · obtain ⟨j, hj, hs⟩ := ih (i + 1) p hp
      exact ⟨j, by omega, hs⟩

theorem rrf_score_le (k : Nat) {i j : Nat} (h : i ≤ j) : rrf_score k j ≤ rrf_score k i := by
  unfold rrf_score
  have hq : (i : ℚ) ≤ (j : ℚ) := by exact_mod_cast h
  have hpos : (0 : ℚ) < (k : ℚ) + (i : ℚ) + 1 := by positivity
  exact one_div_le_one_div_of_le hpos (by linarith)

theorem rrfEntries_pairwise (k : Nat) : ∀ (L : List Nat) (i : Nat),
    List.Pairwise (fun a b : Nat × ℚ => b.2 ≤ a.2) (rrfEntries k i L) := by
  intro L
  induction L with
  | nil => intro i; simp [rrfEntries]
  | cons x rest ih =>
    intro i
    rw [rrfEntries]
    refine List.pairwise_cons.mpr ⟨?_, ih (i + 1)⟩
    intro z hz
    obtain ⟨j, hj, hs⟩ := mem_rrfEntries_score k rest (i + 1) z hz
    rw [hs]
    exact rrf_score_le k (by omega)

theorem fuse_loop_lexical_fresh_append (ls : List (Nat × ℚ)) :
    ∀ (ids : List Nat) (m : List (Nat × ℚ)), ids.Nodup →
      (∀ id ∈ ids, id ∉ m.map Prod.fst) →
      fuse_loop_lexical ls ids m =
        m ++ ids.map (fun id => (id, (dictLookup ls id).getD 0)) := by
  intro ids
  induction ids with
  | nil => intro m _ _; simp [fuse_loop_lexical]
  | cons x rest ih =>
    intro m hnd hfresh
    simp only [List.nodup_cons] at hnd
    rw [fuse_loop_lexical,
      dictInsert_eq_append_of_not_mem m x _ (hfresh x (List.mem_cons_self _ _))]
    rw [ih _ hnd.2 ?_]
    · simp [List.append_assoc]
    · intro id hid
      simp only [List.map_append, List.mem_append, List.map_cons, List.map_nil]
      push_neg
      refine ⟨hfresh id (List.mem_cons_of_mem _ hid), ?_⟩
      simp only [List.mem_singleton]
      rintro rfl
      exact hnd.1 hid

theorem map_rank_eq_rrfEntries (k : Nat) : ∀ (L : List Nat), L.Nodup → ∀ (i : Nat),
    L.map (fun id => (id, rrf_score k (i + (rankOf id L).getD 0))) = rrfEntries k i L := by
  intro L
  induction L with
  | nil => intro _ i; rfl
  | cons x rest ih =>
    intro hnd i
    simp only [List.nodup_cons] at hnd
    rw [List.map_cons, rrfEntries]
    congr 1
    · rw [rankOf, if_pos rfl]
      simp
    · rw [← ih hnd.2 (i + 1)]
      apply List.map_congr_left
      intro id hid
      have hx : ¬(x = id) := by
        rintro rfl
        exact hnd.1 hid
      obtain ⟨r, hr⟩ := rankOf_isSome_of_mem id rest hid
      rw [rankOf, if_neg hx, hr]
      simp only [Option.map_some', Option.getD_some]
      have : i + (r + 1) = i + 1 + r := by omega
      rw [this]

theorem fuse_loop_lexical_eq_rrfEntries (k : Nat) (L : List Nat) (hnd : L.Nodup) :
    fuse_loop_lexical (rrfScoresMap k 0 L []) L [] = rrfEntries k 0 L := by
  rw [fuse_loop_lexical_fresh_append _ L [] hnd (by simp)]
  rw [List.nil_append]
  rw [← map_rank_eq_rrfEntries k L hnd 0]
  apply List.map_congr_left
  intro id hid
  obtain ⟨r, hr⟩ := rankOf_isSome_of_mem id L hid
  have := dictLookup_rrfScoresMap_mem k id L 0 [] r hnd hr
  rw [Nat.zero_add] at this
  rw [this, hr]
  simp

theorem dictLookup_append_not_mem {κ ν : Type} [DecidableEq κ]
    (pre l : List (κ × ν)) (k : κ) (h : k ∉ pre.map Prod.fst) :
    dictLookup (pre ++ l) k = dictLookup l k := by
  induction pre with
  | nil => rfl
  | cons p rest ih =>
    rcases p with ⟨k', v⟩
    simp only [List.map_cons, List.mem_cons] at h
    push_neg at h
    rw [List.cons_append, dictLookup, if_neg (fun he => h.1 he.symm)]
    exact ih h.2

theorem dictModify_append_not_mem {κ ν : Type} [DecidableEq κ]
    (pre l : List (κ × ν)) (k : κ) (f : ν → ν) (h : k ∉ pre.map Prod.fst) :
    dictModify (pre ++ l) k f = pre ++ dictModify l k f := by
  induction pre with
  | nil => rfl
  | cons p rest ih =>
    rcases p with ⟨k', v⟩
    simp only [List.map_cons, List.mem_cons] at h
    push_neg at h
    rw [List.cons_append, dictModify, if_neg (fun he => h.1 he.symm), ih h.2]
    rfl

theorem fuse_loop_vector_over_own_keys (vs : List (Nat × ℚ)) :
    ∀ (m pre : List (Nat × ℚ)), ((pre ++ m).map Prod.fst).Nodup →
      fuse_loop_vector vs (m.map Prod.fst) (pre ++ m) =
        pre ++ m.map (fun p => (p.1, p.2 + (dictLookup vs p.1).getD 0)) := by
  intro m
  induction m with
  | nil => intro pre _; simp [fuse_loop_vector]
  | cons p rest ih =>
    intro pre hnd
    rcases p with ⟨k0, v0⟩
    have hk0pre : k0 ∉ pre.map Prod.fst := by
      intro hmem
      have := (List.nodup_append.mp (by simpa using hnd)).2.2
      exact this hmem (by simp)
    have hlook : dictLookup (pre ++ (k0, v0) :: rest) k0 = some v0 := by
      rw [dictLookup_append_not_mem pre _ k0 hk0pre, dictLookup, if_pos rfl]
    rw [List.map_cons, fuse_loop_vector, hlook]
    simp only [Option.isSome_some, if_pos]
    rw [dictModify_append_not_mem pre _ k0 _ hk0pre]
    rw [show dictModify ((k0, v0) :: rest) k0 (fun s => s + (dictLookup vs k0).getD 0) =
      (k0, v0 + (dictLookup vs k0).getD 0) :: rest by rw [dictModify, if_pos rfl]]
    have hregroup : pre ++ (k0, v0 + (dictLookup vs k0).getD 0) :: rest =
        (pre ++ [(k0, v0 + (dictLookup vs k0).getD 0)]) ++ rest := by
      simp [List.append_assoc]
    rw [hregroup]
    have hnd' : (((pre ++ [(k0, v0 + (dictLookup vs k0).getD 0)]) ++ rest).map
        Prod.fst).Nodup := by
      have : ((pre ++ [(k0, v0 + (dictLookup vs k0).getD 0)]) ++ rest).map Prod.fst =
          (pre ++ (k0, v0) :: rest).map Prod.fst := by
        simp [List.append_assoc]
      rw [this]
      exact hnd
    rw [ih (pre ++ [(k0, v0 + (dictLookup vs k0).getD 0)]) hnd']
    simp [List.append_assoc]

theorem fuse_with_rrf_nil_vec (k : Nat) (L : List Nat) (hnd : L.Nodup) :
    fuse_with_rrf k L [] = rrfEntries k 0 L := by
  unfold fuse_with_rrf
  rw [show fuse_loop_vector (rrfScoresMap k 0 [] []) []
      (fuse_loop_lexical (rrfScoresMap k 0 L []) L []) =
      fuse_loop_lexical (rrfScoresMap k 0 L []) L [] from rfl]
  rw [fuse_loop_lexical_eq_rrfEntries k L hnd]
  exact sortByScoreDesc_eq_self _ (rrfEntries_pairwise k L 0)

theorem fuse_with_rrf_self (k : Nat) (L : List Nat) (hnd : L.Nodup) :
    fuse_with_rrf k L L = (rrfEntries k 0 L).map (fun p => (p.1, p.2 + p.2)) := by
  unfold fuse_with_rrf
  rw [fuse_loop_lexical_eq_rrfEntries k L hnd]
  have hkeys : ((rrfEntries k 0 L).map Prod.fst).Nodup := by
    rw [rrfEntries_map_fst]
    exact hnd
  have hloop := fuse_loop_vector_over_own_keys (rrfScoresMap k 0 L [])
    (rrfEntries k 0 L) [] (by simpa using hkeys)
  rw [List.nil_append, List.nil_append] at hloop
  rw [rrfEntries_map_fst] at hloop
  rw [hloop]
  have hmap : (rrfEntries k 0 L).map
      (fun p => (p.1, p.2 + (dictLookup (rrfScoresMap k 0 L []) p.1).getD 0)) =
      (rrfEntries k 0 L).map (fun p => (p.1, p.2 + p.2)) := by
    apply List.map_congr_left
    intro p hp
    obtain ⟨r, hr, hs⟩ := mem_rrfEntries_rank k L 0 p hnd hp
    rw [Nat.zero_add] at hs
    have hlk := dictLookup_rrfScoresMap_mem k p.1 L 0 [] r hnd hr
    rw [Nat.zero_add] at hlk
    rw [hlk, Option.getD_some, ← hs]
  rw [hmap]
  apply sortByScoreDesc_eq_self
  apply List.pairwise_map.mpr
  exact (rrfEntries_pairwise k L 0).imp (fun hab => add_le_add hab hab)

/-- C9: fusing a duplicate-free ranked list with itself as both inputs
yields exactly the single-list fusion with every score doubled; in
particular the document order equals the input order in both cases, so the
relative ranking is unchanged. -/
theorem c9_fusion_idempotence (L : List Nat) (h : L.Nodup) :
    fuse_with_rrf 60 L L = (fuse_with_rrf 60 L []).map (fun p => (p.1, 2 * p.2)) ∧
    (fuse_with_rrf 60 L L).map Prod.fst = L ∧
    (fuse_with_rrf 60 L []).map Prod.fst = L := by
  have h1 := fuse_with_rrf_nil_vec 60 L h
  have h2 := fuse_with_rrf_self 60 L h
  refine ⟨?_, ?_, ?_⟩
  · rw [h1, h2]
    apply List.map_congr_left
    intro p _
    rw [two_mul]
  · rw [h2, List.map_map]
    have hcomp : (Prod.fst ∘ fun p : Nat × ℚ => (p.1, p.2 + p.2)) = Prod.fst := by
      funext p
      rfl
    rw [hcomp, rrfEntries_map_fst]
  · rw [h1, rrfEntries_map_fst]

/-- Witness for C9 at a concrete ranked list. -/
theorem c9_fusion_idempotence_witness :
    ([5, 7] : List Nat).Nodup ∧
    fuse_with_rrf 60 [5, 7] [5, 7] =
      (fuse_with_rrf 60 [5, 7] []).map (fun p => (p.1, 2 * p.2)) :=
  ⟨by decide, (c9_fusion_idempotence [5, 7] (by decide)).1⟩

/-! ## `retrieval.py`: `search_proposals`

The `try:` block of `search_proposals` computes the embedding, the lexical
and the vector result lists (all external effects, modelled as `Except`
oracles), fuses them, optionally reranks the top 30 with Cohere (the
rerank oracle returns the reordered indices; `_rerank_with_cohere` catches
its own failures and falls back to the fused order), and truncates to
`top_k`.  Any exception escaping the block is caught by the surrounding
`except` and turned into `[]`.  Snippet generation only formats fields and
is omitted from the projection (results are `(id, rrf_score)` pairs). -/

def search_pipeline (embedO : Except (List Char) (List ℚ))
    (lexO vecO : Except (List Char) (List Nat))
    (rerankO : Except (List Char) (List Nat))
    (useRerank cohereConfigured : Bool) (topK : Nat) :
    Except (List Char) (List (Nat × ℚ)) := do
  let _emb ← embedO
  let lex ← lexO
  let vec ← vecO
  let fused := fuse_with_rrf 60 lex vec
  let finalResults :=
    if useRerank && cohereConfigured && decide (0 < fused.length) then
      let headPart := fused.take (min 30 fused.length)
      (match rerankO with
       | .ok idxs => idxs.filterMap (fun i => headPart.get? i)
       | .error _ => headPart) ++ fused.drop (min 30 fused.length)
    else fused
  pure (finalResults.take topK)

/-- `search_proposals` from `retrieval.py`: empty/whitespace queries return
`[]` before any effect runs; otherwise the pipeline runs inside
`try/except` and every escaping failure yields `[]`. -/
def search_proposals (q : List Char) (embedO : Except (List Char) (List ℚ))
    (lexO vecO : Except (List Char) (List Nat))
    (rerankO : Except (List Char) (List Nat))
    (useRerank cohereConfigured : Bool) (topK : Nat) : List (Nat × ℚ) :=
  if q = [] ∨ trimChars q = [] then []
  else
    match search_pipeline embedO lexO vecO rerankO useRerank cohereConfigured topK with
    | .ok r => r
    | .error _ => []

/-- C10: `search_proposals` is total; an empty or whitespace-only query
returns `[]` whatever the oracles would answer (the providers are never
consulted), and a failure of the embedding provider, the lexical query or
the vector query is caught and yields `[]`. -/
theorem c10_search_never_raises (q : List Char) :
    (∀ (embedO : Except (List Char) (List ℚ)) (lexO vecO rerankO : Except (List Char) (List Nat))
        (u c : Bool) (t : Nat), (q = [] ∨ trimChars q = []) →
      search_proposals q embedO lexO vecO rerankO u c t = []) ∧
    (∀ (e : List Char) (lexO vecO rerankO : Except (List Char) (List Nat)) (u c : Bool) (t : Nat),
      search_proposals q (Except.error e) lexO vecO rerankO u c t = []) ∧
    (∀ (emb : List ℚ) (e : List Char) (vecO rerankO : Except (List Char) (List Nat))
        (u c : Bool) (t : Nat),
      search_proposals q (Except.ok emb) (Except.error e) vecO rerankO u c t = []) ∧
    (∀ (emb : List ℚ) (lex : List Nat) (e : List Char) (rerankO : Except (List Char) (List Nat))
        (u c : Bool) (t : Nat),
      search_proposals q (Except.ok emb) (Except.ok lex) (Except.error e) rerankO u c t = []) := by
  refine ⟨?_, ?_, ?_, ?_⟩
  · intro embedO lexO vecO rerankO u c t h
    unfold search_proposals
    rw [if_pos h]
  · intro e lexO vecO rerankO u c t
    unfold search_proposals
    split
    · rfl
    · rfl
  · intro emb e vecO rerankO u c t
    unfold search_proposals
    split
    · rfl
    · rfl
  · intro emb lex e rerankO u c t
    unfold search_proposals
    split
    · rfl
    · rfl

/-- Witness for C10: a whitespace query and a database failure. -/
theorem c10_search_never_raises_witness :
    search_proposals ("   ".toList) (Except.ok []) (Except.ok []) (Except.ok [])
        (Except.ok []) true true 10 = [] ∧
    search_proposals ("grants".toList) (Except.ok []) (Except.error ("db down".toList))
        (Except.ok []) (Except.ok []) true true 10 = [] :=
  ⟨(c10_search_never_raises ("   ".toList)).1 _ _ _ _ _ _ _ (Or.inr (by decide)),
    (c10_search_never_raises ("grants".toList)).2.2.1 _ _ _ _ _ _ _⟩

/-! ## `orchestration.py`: the intent router (`_analyze_query_intent`) -/

/-- The `"sql_agent"` route label. -/
def sqlAgentKey : List Char := "sql_agent".toList

/-- The `"retrieval_agent"` route label. -/
def retrievalAgentKey : List Char := "retrieval_agent".toList

/-- The `"composer"` route label (the direct route). -/
def composerKey : List Char := "composer".toList

/-- Consume exactly `n` decimal digits. -/
def digitsThen : Nat → List Char → Option (List Char)
  | 0, s => some s
  | _ + 1, [] => none
  | n + 1, c :: s => if c.isDigit then digitsThen n s else none

/-- Consume exactly the character `ch`. -/
def charThen (ch : Char) : List Char → Option (List Char)
  | [] => none
  | c :: s => if c = ch then some s else none

/-- `re.search(p, s)` for an anchored matcher `p`: try every suffix. -/
def existsAt (p : List Char → Bool) : List Char → Bool
  | [] => p []
  | c :: t => p (c :: t) || existsAt p t

/-- Anchored `\d{4}-\d{2}-\d{2}`. -/
def matchIsoDate (s : List Char) : Bool :=
  (((((digitsThen 4 s).bind (charThen '-')).bind (digitsThen 2)).bind
    (charThen '-')).bind (digitsThen 2)).isSome

/-- Anchored `\d{2}/\d{2}/\d{4}`. -/
def matchUsDate (s : List Char) : Bool :=
  (((((digitsThen 2 s).bind (charThen '/')).bind (digitsThen 2)).bind
    (charThen '/')).bind (digitsThen 4)).isSome

/-- Anchored `\d{4}/\d{2}/\d{2}`. -/
def matchYmdSlash (s : List Char) : Bool :=
  (((((digitsThen 4 s).bind (charThen '/')).bind (digitsThen 2)).bind
    (charThen '/')).bind (digitsThen 2)).isSome

/-- Anchored `\d{1,2}/\d{1,2}/\d{4}` (a match exists iff one of the four
digit-count choices matches, which is what backtracking search decides). -/
def matchFlexDate (s : List Char) : Bool :=
  [1, 2].any (fun a => [1, 2].any (fun b =>
    (((((digitsThen a s).bind (charThen '/')).bind (digitsThen b)).bind
      (charThen '/')).bind (digitsThen 4)).isSome))

/-- `_is_exact_lookup` from `orchestration.py` (the digit test runs on the
raw query; the pattern tests on the lower-cased one). -/
def is_exact_lookup (query ql : List Char) : Bool :=
  (["proposal with id".toList, "proposal id".toList, "id is".toList, "id =".toList,
    "id:".toList, "proposal #".toList, "proposal number".toList, "specific proposal".toList,
    "details of proposal".toList].any (fun p => containsSub p ql)) ||
  (containsSub ("proposal".toList) ql && query.any Char.isDigit) ||
  (["give me the details".toList, "show me the details".toList,
    "get the details".toList].any (fun p => containsSub p ql))

/-- `_is_analytical_query` from `orchestration.py`. -/
def is_analytical_query (ql : List Char) : Bool :=
  ["how many".toList, "count".toList, "total".toList, "number of".toList, "amount".toList,
   "amounts".toList, "highest".toList, "lowest".toList, "average".toList, "sum".toList,
   "statistics".toList, "most".toList, "least".toList, "maximum".toList, "minimum".toList,
   "show me proposal amounts".toList].any (fun p => containsSub p ql)

/-- `_is_date_filtered_query` from `orchestration.py`. -/
def is_date_filtered_query (ql : List Char) : Bool :=
  (["recent".toList, "after".toList, "before".toList, "between".toList, "since".toList,
    "until".toList, "january".toList, "february".toList, "march".toList, "april".toList,
    "may".toList, "june".toList, "july".toList, "august".toList, "september".toList,
    "october".toList, "november".toList, "december".toList, "jan".toList, "feb".toList,
    "mar".toList, "apr".toList, "may".toList, "jun".toList, "jul".toList, "aug".toList,
    "sep".toList, "oct".toList, "nov".toList, "dec".toList, "2024".toList, "2025".toList,
    "2026".toList, "2027".toList, "2028".toList, "2029".toList,
    "2030".toList].any (fun p => containsSub p ql)) ||
  existsAt matchIsoDate ql || existsAt matchUsDate ql || existsAt matchYmdSlash ql ||
  existsAt matchFlexDate ql

/-- The example-request cues of `_is_mixed_query`. -/
def examplesCuesMixed : List (List Char) :=
  ["show some".toList, "name a few".toList, "give examples".toList, "show examples".toList,
   "and show".toList, "and name".toList, "and give".toList, "and show some".toList,
   "and name a few".toList]

/-- `_is_mixed_query` from `orchestration.py`. -/
def is_mixed_query (ql : List Char) : Bool :=
  (["how many".toList, "count".toList, "total".toList].any (fun p => containsSub p ql)) &&
  (examplesCuesMixed.any (fun p => containsSub p ql))

/-- `_is_filtered_query` from `orchestration.py`. -/
def is_filtered_query (ql : List Char) : Bool :=
  ((["kusama".toList, "polkadot".toList, "westend".toList,
      "rococo".toList].any (fun p => containsSub p ql)) ||
   (["treasury".toList, "council".toList, "referendum".toList, "bounty".toList,
      "tip".toList, "motion".toList].any (fun p => containsSub p ql))) &&
  (["find".toList, "what".toList, "show me".toList, "get".toList, "list".toList,
    "all".toList].any (fun p => containsSub p ql))

/-- `_is_semantic_search_query` from `orchestration.py`. -/
def is_semantic_search_query (ql : List Char) : Bool :=
  (["find".toList, "search".toList, "show me".toList, "tell me about".toList,
    "what".toList, "which".toList, "get".toList, "look for".toList,
    "discover".toList].any (fun p => containsSub p ql)) ||
  (["clarys".toList, "subsquare".toList, "polkadot".toList, "kusama".toList,
    "treasury".toList, "council".toList, "referendum".toList, "bounty".toList,
    "tip".toList].any (fun p => containsSub p ql)) ||
  (containsSub ("proposal".toList) ql && !(ql.any Char.isDigit) &&
    !(["how many".toList, "count".toList, "total".toList,
        "amount".toList].any (fun p => containsSub p ql)))

/-- `_analyze_query_intent` from `orchestration.py`: the six classifiers in
strict priority order, else the direct (`composer`) route. -/
def analyze_query_intent (query : List Char) : List Char :=
  if is_exact_lookup query (lowerL query) then sqlAgentKey
  else if is_mixed_query (lowerL query) then sqlAgentKey
  else if is_analytical_query (lowerL query) then sqlAgentKey
  else if is_date_filtered_query (lowerL query) then sqlAgentKey
  else if is_filtered_query (lowerL query) then sqlAgentKey
  else if is_semantic_search_query (lowerL query) then retrievalAgentKey
  else composerKey

/-- C8: a query containing the aggregate cue `"how many"` and no examples
cue routes to `sql_agent`: the first three classifiers all return
`sql_agent` and the analytical classifier necessarily fires. -/
theorem c8_how_many_routes_to_sql (query : List Char)
    (h1 : containsSub ("how many".toList) (lowerL query) = true)
    (h2 : ∀ p ∈ examplesCuesMixed, containsSub p (lowerL query) = false) :
    analyze_query_intent query = sqlAgentKey := by
  have hana : is_analytical_query (lowerL query) = true := by
    unfold is_analytical_query
    simp only [List.any_eq_true]
    exact ⟨"how many".toList, by decide, h1⟩
  unfold analyze_query_intent
  by_cases he : is_exact_lookup query (lowerL query) = true
  · rw [if_pos he]
  · rw [if_neg he]
    by_cases hm : is_mixed_query (lowerL query) = true
    · rw [if_pos hm]
    · rw [if_neg hm, if_pos hana]

/-- Witness for C8 at the spec's end-to-end scenario 1 query. -/
theorem c8_how_many_routes_to_sql_witness :
    containsSub ("how many".toList) (lowerL ("How many proposals are there?".toList)) = true ∧
    (∀ p ∈ examplesCuesMixed,
      containsSub p (lowerL ("How many proposals are there?".toList)) = false) ∧
    analyze_query_intent ("How many proposals are there?".toList) = sqlAgentKey :=
  ⟨by decide, by decide,
    c8_how_many_routes_to_sql ("How many proposals are there?".toList) (by decide) (by decide)⟩

/-! ## `orchestration.py`: retrieval hit display filtering -/

/-- A retrieval/rerank hit dict. Text fields are `Option (List Char)`
(Python `None` vs a string); numeric fields are exact rationals. -/
structure RItem where
  id : Option (List Char) := none
  title : Option (List Char) := none
  type : Option (List Char) := none
  network : Option (List Char) := none
  created_at : Option (List Char) := none
  proposer : Option (List Char) := none
  status : Option (List Char) := none
  description : Option (List Char) := none
  amount : Option ℚ := none
  amount_numeric : Option ℚ := none
  score : Option ℚ := none
  deriving DecidableEq, Repr

/-- The display relevance threshold `0.015` hard-coded in both filters. -/
def relevanceThreshold : ℚ := mkRat 15 1000

/-- `if len(l) > 5: l = l[:5]` from both display filters. -/
def displayTruncate (l : List RItem) : List RItem :=
  if 5 < l.length then l.take 5 else l

/-- The `_composer_node` retrieval-route display filter: keep hits with
`r.get("score", 0.0) >= 0.015`, cap at 5, and if none survive fall back to
the first two elements of the incoming list. -/
def composer_display_filter (rr : List RItem) : List RItem :=
  if displayTruncate (rr.filter (fun r => decide (relevanceThreshold ≤ r.score.getD 0))) = []
  then rr.take 2
  else displayTruncate (rr.filter (fun r => decide (relevanceThreshold ≤ r.score.getD 0)))

/-- The `run_graph` streaming `retrieval_hits` display filter — the same
code duplicated over `retrieval_hits` instead of `reranked_results`. -/
def stream_display_filter (rr : List RItem) : List RItem :=
  if displayTruncate (rr.filter (fun r => decide (relevanceThreshold ≤ r.score.getD 0))) = []
  then rr.take 2
  else displayTruncate (rr.filter (fun r => decide (relevanceThreshold ≤ r.score.getD 0)))

theorem displayTruncate_eq_take5 (l : List RItem) : displayTruncate l = l.take 5 := by
  unfold displayTruncate
  split
  · rfl
  · rw [List.take_of_length_le (by omega)]

theorem displayTruncate_eq_nil_iff (l : List RItem) : displayTruncate l = [] ↔ l = [] := by
  rw [displayTruncate_eq_take5]
  constructor
  · intro h
    cases l with
    | nil => rfl
    | cons a t => simp at h
  · intro h
    subst h
    rfl

/-- C6 (amended): the streaming filter and the composer filter are the same
policy; when some hit clears the `0.015` threshold the display set is the
above-threshold hits capped at 5; when none does, the display set is the
FIRST two elements of the incoming list (not the top two by score); and a
non-empty input always yields a non-empty display set. -/
theorem c6_display_filter_amended (rr : List RItem) :
    stream_display_filter rr = composer_display_filter rr ∧
    ((∃ r ∈ rr, relevanceThreshold ≤ r.score.getD 0) →
      composer_display_filter rr =
        (rr.filter (fun r => decide (relevanceThreshold ≤ r.score.getD 0))).take 5) ∧
    ((∀ r ∈ rr, r.score.getD 0 < relevanceThreshold) →
      composer_display_filter rr = rr.take 2) ∧
    (rr ≠ [] → composer_display_filter rr ≠ []) := by
  refine ⟨rfl, ?_, ?_, ?_⟩
  · rintro ⟨r, hmem, hsc⟩
    have hne : rr.filter (fun r => decide (relevanceThreshold ≤ r.score.getD 0)) ≠ [] := by
      intro hnil
      have := (List.filter_eq_nil_iff.mp hnil) r hmem
      simp [hsc] at this
    unfold composer_display_filter
    rw [if_neg (fun h => hne ((displayTruncate_eq_nil_iff _).mp h)), displayTruncate_eq_take5]
  · intro hall
    have hnil : rr.filter (fun r => decide (relevanceThreshold ≤ r.score.getD 0)) = [] := by
      apply List.filter_eq_nil_iff.mpr
      intro r hmem
      simp only [decide_eq_true_eq]
      exact not_le.mpr (hall r hmem)
    unfold composer_display_filter
    rw [hnil]
    rfl
  · intro hne
    unfold composer_display_filter
    split
    · intro h2
      cases rr with
      | nil => exact hne rfl
      | cons a t => simp at h2
    · rename_i hcond
      exact hcond

/-- A hit whose only populated field is its score. -/
def c6Hit (s : ℚ) : RItem := { score := some s }

/-- Three hits all scoring below the threshold, the highest-scoring one
(`0.014`) listed LAST in rerank order. -/
def c6Hits : List RItem :=
  [c6Hit (mkRat 1 1000), c6Hit (mkRat 1 100), c6Hit (mkRat 7 500)]

/-- C6 counterexample: with every hit below `0.015`, the display set is the
first two list elements, so the strictly highest-scoring hit (`0.014`) is
left out — the spec's "top 2 hits by score" does not hold. -/
theorem c6_display_filter_counterexample :
    (∀ r ∈ c6Hits, r.score.getD 0 < relevanceThreshold) ∧
    c6Hit (mkRat 7 500) ∈ c6Hits ∧
    (∀ r ∈ c6Hits, r ≠ c6Hit (mkRat 7 500) → r.score.getD 0 < (c6Hit (mkRat 7 500)).score.getD 0) ∧
    c6Hit (mkRat 7 500) ∉ composer_display_filter c6Hits := by
  decide

/-- Witness for C6 (amended) at concrete inputs: one hit above threshold
exercises the keep-branch; a unary list exercises non-emptiness. -/
theorem c6_display_filter_amended_witness :
    (∃ r ∈ [c6Hit (mkRat 2 100)], relevanceThreshold ≤ r.score.getD 0) ∧
    composer_display_filter [c6Hit (mkRat 2 100)] =
      (([c6Hit (mkRat 2 100)]).filter
        (fun r => decide (relevanceThreshold ≤ r.score.getD 0))).take 5 ∧
    ([c6Hit (mkRat 2 100)] : List RItem) ≠ [] ∧
    composer_display_filter [c6Hit (mkRat 2 100)] ≠ [] := by
  have h := c6_display_filter_amended [c6Hit (mkRat 2 100)]
  exact ⟨by decide, h.2.1 (by decide), by decide, h.2.2.2 (by decide)⟩

/-! ## `orchestration.py`: the workflow state, the five nodes and the two
executors.

Node wall-clock durations (`time.time() - start_time`) are abstracted as
`Nat` parameters, one per node, the same duration being fed to a node in
both executors. The two fallible services (`execute_nlsql`,
`search_proposals`) are abstracted as `Except` oracles shared by both
executors. Python float formatting in f-strings is abstracted by an exact
rendering of the rational; no claim depends on the rendered digits. -/

/-- The dict `execute_nlsql` returns (or the error dict built in the node's
`except` arms). -/
structure SqlResultDict where
  error : Option (List Char) := none
  count : Nat := 0
  examples : List RItem := []
  plan : Option (List Char) := none
  sql : Option (List Char) := none
  deriving DecidableEq, Repr

/-- The `OrchestrationState` dict of `orchestration.py` (the keys of the
initial dict in `run_graph`, plus `proposals_for_descriptions` which the
composer adds on the retrieval route). -/
structure OrchestrationState where
  query : List Char := []
  route_decision : List Char := []
  sql_query : List Char := []
  sql_result : Option SqlResultDict := none
  retrieval_hits : List RItem := []
  reranked_results : List RItem := []
  final_answer : List Char := []
  metadata : List (List Char × List Char) := []
  processing_times : List (List Char × Nat) := []
  proposals_for_descriptions : Option (List RItem) := none
  deriving DecidableEq, Repr

/-- The initial state dict built at the top of `run_graph`. -/
def initialState (q : List Char) : OrchestrationState := { query := q }

/-- Python `d.get(k, default)` on an optional text field. -/
def optStr (o : Option (List Char)) (d : List Char) : List Char := o.getD d

/-- Python `x or default` on an optional text field (`None` and `""` both
fall through). -/
def orStr (o : Option (List Char)) (d : List Char) : List Char :=
  match o with
  | none => d
  | some s => if s = [] then d else s

/-- Python `a or b` on two optional numbers (`None` and `0` fall through). -/
def orQ (a b : Option ℚ) : Option ℚ :=
  match a with
  | none => b
  | some x => if x = 0 then b else some x

/-- Truthiness of an optional number (`if amount:`). -/
def qTruthy (o : Option ℚ) : Bool :=
  match o with
  | none => false
  | some x => decide (¬x = 0)

/-- Exact textual rendering of a rational (abstraction of Python float
formatting). -/
def ratToChars (x : ℚ) : List Char :=
  (if x < 0 then "-".toList else []) ++ natToChars x.num.natAbs ++
  (if x.den = 1 then [] else "/".toList ++ natToChars x.den)

/-- `description[:200]` plus the conditional ellipsis. -/
def truncDescription (d : List Char) : List Char :=
  d.take 200 ++ (if 200 < d.length then "...".toList else [])

/-- One `## Proposal {i}: ...` block of the SQL-route composer loop
(defaults via `.get(key, default)`, amount from `amount_numeric`). -/
def formatSqlExample (i : Nat) (e : RItem) : List Char :=
  "## Proposal ".toList ++ natToChars i ++ ": ".toList ++ optStr e.title ("Untitled".toList) ++
  "\n**ID:** ".toList ++ optStr e.id ("N/A".toList) ++
  "\n**Type:** ".toList ++ optStr e.type ("Unknown".toList) ++
  "\n**Network:** ".toList ++ optStr e.network ("Unknown".toList) ++
  "\n**Proposer:** ".toList ++ optStr e.proposer ("Unknown".toList) ++
  "\n**Status:** ".toList ++ optStr e.status ("Unknown".toList) ++
  "\n**Created:** ".toList ++ optStr e.created_at ("Unknown".toList) ++ "\n".toList ++
  (if qTruthy e.amount_numeric
   then "**Amount:** ".toList ++ ratToChars ((e.amount_numeric).getD 0) ++ "\n".toList
   else []) ++
  "**Description:** ".toList ++
  truncDescription (optStr e.description ("No description available".toList)) ++ "\n\n".toList

/-- `for i, example in enumerate(examples[:5], 1)` body concatenation. -/
def formatSqlExamplesFrom : Nat → List RItem → List Char
  | _, [] => []
  | i, e :: rest => formatSqlExample i e ++ formatSqlExamplesFrom (i + 1) rest

/-- The `"No proposals found matching your criteria."` message. -/
def noProposalsMsg : List Char := "No proposals found matching your criteria.".toList

/-- The `"I couldn't find any relevant information for your query."`
message of the composer's default branch. -/
def cantFindMsg : List Char :=
  "I couldn't find any relevant information for your query.".toList

/-- The SQL-route composer answer. -/
def sqlAnswer (r : SqlResultDict) : List Char :=
  if 0 < r.count then
    "Found ".toList ++ natToChars r.count ++ " proposals".toList ++
    (if r.examples ≠ []
     then ". Here are some examples:\n\n".toList ++ formatSqlExamplesFrom 1 (r.examples.take 5)
     else [])
  else noProposalsMsg

/-- One block of the retrieval-route composer loop (defaults via `or`,
amount from `amount or amount_numeric`). -/
def formatRetrievalResult (i : Nat) (e : RItem) : List Char :=
  "## Proposal ".toList ++ natToChars i ++ ": ".toList ++ orStr e.title ("Untitled".toList) ++
  "\n**ID:** ".toList ++ orStr e.id ("N/A".toList) ++
  "\n**Type:** ".toList ++ orStr e.type ("Unknown".toList) ++
  "\n**Network:** ".toList ++ orStr e.network ("Unknown".toList) ++
  "\n**Proposer:** ".toList ++ orStr e.proposer ("Unknown".toList) ++
  "\n**Status:** ".toList ++ orStr e.status ("Unknown".toList) ++
  "\n**Created:** ".toList ++ orStr e.created_at ("Unknown".toList) ++ "\n".toList ++
  (if qTruthy (orQ e.amount e.amount_numeric)
   then "**Amount:** ".toList ++ ratToChars ((orQ e.amount e.amount_numeric).getD 0) ++ "\n".toList
   else []) ++
  "**Description:** ".toList ++
  truncDescription (orStr e.description ("No description available".toList)) ++ "\n\n".toList

/-- `for i, result in enumerate(relevant_results, 1)` body concatenation. -/
def formatRetrievalResultsFrom : Nat → List RItem → List Char
  | _, [] => []
  | i, e :: rest => formatRetrievalResult i e ++ formatRetrievalResultsFrom (i + 1) rest

/-- The retrieval-route composer answer over the filtered display set. -/
def retrievalAnswer (l : List RItem) : List Char :=
  "Found ".toList ++ natToChars l.length ++ " relevant proposals:\n\n".toList ++
  formatRetrievalResultsFrom 1 l

/-- `_router_node`: set `route_decision` from the intent analysis and
record the router duration. -/
def router_node (t : Nat) (s : OrchestrationState) : OrchestrationState :=
  { s with route_decision := analyze_query_intent s.query,
           processing_times := dictInsert s.processing_times ("router".toList) t }

/-- `_sql_agent_node`: on success store sql/result/plan, on any exception
store the error dict; always record the duration. -/
def sql_agent_node (t : Nat) (outcome : Except (List Char) SqlResultDict)
    (s : OrchestrationState) : OrchestrationState :=
  match outcome with
  | .ok r =>
    { s with sql_query := r.sql.getD [],
             sql_result := some r,
             metadata := dictInsert s.metadata ("sql_plan".toList) (r.plan.getD []),
             processing_times := dictInsert s.processing_times ("sql_agent".toList) t }
  | .error e =>
    { s with sql_result := some { error := some e, count := 0, examples := [] },
             processing_times := dictInsert s.processing_times ("sql_agent".toList) t }

/-- `_retrieval_agent_node`: store the hits, or `[]` on any exception;
always record the duration. -/
def retrieval_agent_node (t : Nat) (outcome : Except (List Char) (List RItem))
    (s : OrchestrationState) : OrchestrationState :=
  match outcome with
  | .ok hits =>
    { s with retrieval_hits := hits,
             processing_times := dictInsert s.processing_times ("retrieval_agent".toList) t }
  | .error _ =>
    { s with retrieval_hits := [],
             processing_times := dictInsert s.processing_times ("retrieval_agent".toList) t }

/-- The if/elif/else selection of `_rerank_node`: SQL examples when an
error-free truthy SQL result exists, else the retrieval hits, else `[]`. -/
def rerankSelect (sqlr : Option SqlResultDict) (hits : List RItem) : List RItem :=
  match sqlr with
  | some r =>
    if r.error.getD [] = [] then r.examples
    else if hits ≠ [] then hits else []
  | none => if hits ≠ [] then hits else []

/-- `_rerank_node`: store the selection and record the duration. -/
def rerank_node (t : Nat) (s : OrchestrationState) : OrchestrationState :=
  { s with reranked_results := rerankSelect s.sql_result s.retrieval_hits,
           processing_times := dictInsert s.processing_times ("rerank".toList) t }

/-- The branch structure of `_composer_node`: the SQL branch needs
`route_decision == "sql_agent" and sql_result` (a truthy, i.e. present,
result dict), the retrieval branch needs non-empty `reranked_results`. -/
def composer_core (s : OrchestrationState) : OrchestrationState :=
  match s.sql_result with
  | some r =>
    if s.route_decision = sqlAgentKey then
      { s with final_answer := sqlAnswer r }
    else if s.route_decision = retrievalAgentKey ∧ s.reranked_results ≠ [] then
      { s with final_answer := retrievalAnswer (composer_display_filter s.reranked_results),
               proposals_for_descriptions := some (composer_display_filter s.reranked_results) }
    else { s with final_answer := cantFindMsg }
  | none =>
    if s.route_decision = retrievalAgentKey ∧ s.reranked_results ≠ [] then
      { s with final_answer := retrievalAnswer (composer_display_filter s.reranked_results),
               proposals_for_descriptions := some (composer_display_filter s.reranked_results) }
    else { s with final_answer := cantFindMsg }

/-- `_composer_node`: compose the answer, stamp
`metadata["processing_type"]` and the composer duration. -/
def composer_node (t : Nat) (s : OrchestrationState) : OrchestrationState :=
  { composer_core s with
      metadata := dictInsert (composer_core s).metadata ("processing_type".toList)
        s.route_decision,
      processing_times := dictInsert (composer_core s).processing_times ("composer".toList) t }

/-- The compiled `StateGraph` of `_create_graph`: router, then the
conditional edge to exactly one of `sql_agent` / `retrieval_agent` /
`composer`; the two agent nodes continue through `rerank_node` to
`composer`, while the direct route reaches `composer` immediately. -/
def graph_executor (tR tS tV tK tC : Nat) (sqlO : Except (List Char) SqlResultDict)
    (retO : Except (List Char) (List RItem)) (q : List Char) : OrchestrationState :=
  if (router_node tR (initialState q)).route_decision = sqlAgentKey then
    composer_node tC (rerank_node tK (sql_agent_node tS sqlO (router_node tR (initialState q))))
  else if (router_node tR (initialState q)).route_decision = retrievalAgentKey then
    composer_node tC (rerank_node tK
      (retrieval_agent_node tV retO (router_node tR (initialState q))))
  else composer_node tC (router_node tR (initialState q))

/-- `_run_fallback_workflow`: router, conditionally one agent node, then
UNCONDITIONALLY `rerank_node`, then `composer`. -/
def fallback_executor (tR tS tV tK tC : Nat) (sqlO : Except (List Char) SqlResultDict)
    (retO : Except (List Char) (List RItem)) (q : List Char) : OrchestrationState :=
  composer_node tC (rerank_node tK
    (if (router_node tR (initialState q)).route_decision = sqlAgentKey then
      sql_agent_node tS sqlO (router_node tR (initialState q))
    else if (router_node tR (initialState q)).route_decision = retrievalAgentKey then
      retrieval_agent_node tV retO (router_node tR (initialState q))
    else router_node tR (initialState q)))

theorem router_node_route (t : Nat) (s : OrchestrationState) :
    (router_node t s).route_decision = analyze_query_intent s.query := rfl

theorem initialState_query (q : List Char) : (initialState q).query = q := rfl

theorem analyze_query_intent_cases (q : List Char) :
    analyze_query_intent q = sqlAgentKey ∨ analyze_query_intent q = retrievalAgentKey ∨
    analyze_query_intent q = composerKey := by
  unfold analyze_query_intent
  split_ifs <;> simp

/-- C2 (amended): on the two agent routes the graph executor and the
fallback executor agree exactly; on the direct (`composer`) route they
differ: the fallback additionally runs `rerank_node`, so its final state
carries an extra `"rerank"` entry in `processing_times` that the graph's
state lacks, and the states are otherwise identical. -/
theorem c2_executor_equivalence_amended (tR tS tV tK tC : Nat)
    (sqlO : Except (List Char) SqlResultDict) (retO : Except (List Char) (List RItem))
    (q : List Char) :
    (analyze_query_intent q ≠ composerKey →
      graph_executor tR tS tV tK tC sqlO retO q =
        fallback_executor tR tS tV tK tC sqlO retO q) ∧
    (analyze_query_intent q = composerKey →
      (graph_executor tR tS tV tK tC sqlO retO q).processing_times =
        [("router".toList, tR), ("composer".toList, tC)] ∧
      fallback_executor tR tS tV tK tC sqlO retO q =
        { graph_executor tR tS tV tK tC sqlO retO q with
            processing_times :=
              [("router".toList, tR), ("rerank".toList, tK), ("composer".toList, tC)] }) := by
  have hcs : ¬(composerKey = sqlAgentKey) := by decide
  have hcr : ¬(composerKey = retrievalAgentKey) := by decide
  have hrs : ¬(retrievalAgentKey = sqlAgentKey) := by decide
  constructor
  · intro hne
    rcases analyze_query_intent_cases q with h | h | h
    · unfold graph_executor fallback_executor
      rw [router_node_route, initialState_query, h]
      simp
    · unfold graph_executor fallback_executor
      rw [router_node_route, initialState_query, h]
      simp [hrs]
    · exact absurd h hne
  · intro hroute
    have hg : graph_executor tR tS tV tK tC sqlO retO q =
        composer_node tC (router_node tR (initialState q)) := by
      unfold graph_executor
      rw [router_node_route, initialState_query, hroute]
      simp [hcs, hcr]
    have hf : fallback_executor tR tS tV tK tC sqlO retO q =
        composer_node tC (rerank_node tK (router_node tR (initialState q))) := by
      unfold fallback_executor
      rw [router_node_route, initialState_query, hroute]
      simp [hcs, hcr]
    have hs1 : router_node tR (initialState q) =
        { query := q, route_decision := composerKey,
          processing_times := [("router".toList, tR)] } := by
      simp [router_node, initialState, dictInsert, hroute]
    have hrc : ¬("router".toList = "composer".toList) := by decide
    have hrk : ¬("router".toList = "rerank".toList) := by decide
    have hkc : ¬("rerank".toList = "composer".toList) := by decide
    constructor
    · rw [hg, hs1]
      simp [composer_node, composer_core, dictInsert, hcr, hrc]
    · rw [hf, hg, hs1]
      simp [composer_node, composer_core, rerank_node, rerankSelect, dictInsert,
        hcr, hrc, hrk, hkc]

/-- C2 counterexample: the empty query routes direct-to-composer; there the
two executors produce different final states — the fallback's
`processing_times` dict has a `"rerank"` entry the graph's lacks. -/
theorem c2_executor_equivalence_counterexample :
    analyze_query_intent [] = composerKey ∧
    fallback_executor 1 1 1 1 1 (Except.error []) (Except.error []) [] ≠
      graph_executor 1 1 1 1 1 (Except.error []) (Except.error []) [] ∧
    ("rerank".toList, 1) ∈
      (fallback_executor 1 1 1 1 1 (Except.error []) (Except.error []) []).processing_times ∧
    ("rerank".toList, 1) ∉
      (graph_executor 1 1 1 1 1 (Except.error []) (Except.error []) []).processing_times := by
  decide

/-- Witness for C2 (amended): the agent-route equality at a SQL-routed
query, and the direct-route divergence at the empty query. -/
theorem c2_executor_equivalence_amended_witness :
    (analyze_query_intent ("how many proposals are there".toList) ≠ composerKey ∧
      graph_executor 1 2 3 4 5 (Except.ok {}) (Except.error [])
          ("how many proposals are there".toList) =
        fallback_executor 1 2 3 4 5 (Except.ok {}) (Except.error [])
          ("how many proposals are there".toList)) ∧
    (analyze_query_intent [] = composerKey ∧
      (graph_executor 1 2 3 4 5 (Except.ok {}) (Except.error []) []).processing_times =
        [("router".toList, 1), ("composer".toList, 5)]) := by
  refine ⟨⟨by decide, ?_⟩, ⟨by decide, ?_⟩⟩
  · exact (c2_executor_equivalence_amended 1 2 3 4 5 (Except.ok {}) (Except.error [])
      ("how many proposals are there".toList)).1 (by decide)
  · exact ((c2_executor_equivalence_amended 1 2 3 4 5 (Except.ok {}) (Except.error []) []).2
      (by decide)).1

/-! ## `run_graph` streaming and the `/query/stream` endpoint (C7)

Events are modelled by their `stage` tags; the SSE `data:` framing carries
one event per line and the terminal `[DONE]` marker is the `done` tag.
`genFail` abstracts an exception inside `run_graph` (caught by its own
`except`, which appends one `error` event and ends the generator);
`wrapFail` abstracts an exception while the endpoint iterates/serializes
event number `j` (caught by the endpoint's `except`, which emits an
`error` event and the `[DONE]` marker). -/

/-- The `stage` tags that can appear on the stream. -/
inductive StreamStage where
  | router_decision
  | sql_result
  | retrieval_hits
  | final_answer
  | proposal_descriptions
  | proposals_data
  | error
  | done
  deriving DecidableEq, Repr

/-- The event sequence of `run_graph`'s `try` block: `router_decision`,
one route-dependent result event, `final_answer`, and the two
`proposals_for_descriptions` events when that key is truthy. -/
def orchestrationEvents (route : List Char) (hasPfd : Bool) : List StreamStage :=
  [StreamStage.router_decision] ++
  (if route = sqlAgentKey then [StreamStage.sql_result]
   else if route = retrievalAgentKey then [StreamStage.retrieval_hits] else []) ++
  [StreamStage.final_answer] ++
  (if hasPfd then [StreamStage.proposal_descriptions] else []) ++
  (if hasPfd then [StreamStage.proposals_data] else [])

/-- `run_graph` as a generator: on an exception after `k` yielded events
the `except` arm emits a single `error` event and the generator ends. -/
def run_graph_events (route : List Char) (hasPfd : Bool) (genFail : Option Nat) :
    List StreamStage :=
  match genFail with
  | none => orchestrationEvents route hasPfd
  | some k => (orchestrationEvents route hasPfd).take k ++ [StreamStage.error]

/-- The endpoint's `generate_stream`: forward the generator's events then
`[DONE]`; if iterating/serializing event `j` raises, emit `error` then
`[DONE]`. -/
def stream_response_lines (route : List Char) (hasPfd : Bool)
    (genFail wrapFail : Option Nat) : List StreamStage :=
  match wrapFail with
  | none => run_graph_events route hasPfd genFail ++ [StreamStage.done]
  | some j =>
    if j < (run_graph_events route hasPfd genFail).length then
      (run_graph_events route hasPfd genFail).take j ++ [StreamStage.error, StreamStage.done]
    else run_graph_events route hasPfd genFail ++ [StreamStage.done]

theorem error_not_mem_orchestrationEvents (route : List Char) (hasPfd : Bool) :
    StreamStage.error ∉ orchestrationEvents route hasPfd := by
  unfold orchestrationEvents
  split_ifs <;> decide

theorem count_final_orchestrationEvents (route : List Char) (hasPfd : Bool) :
    (orchestrationEvents route hasPfd).count StreamStage.final_answer = 1 := by
  unfold orchestrationEvents
  split_ifs <;> decide

theorem count_final_run_graph_events (route : List Char) (hasPfd : Bool)
    (genFail : Option Nat) :
    (run_graph_events route hasPfd genFail).count StreamStage.final_answer ≤ 1 := by
  unfold run_graph_events
  match genFail with
  | none => exact le_of_eq (count_final_orchestrationEvents route hasPfd)
  | some k =>
    rw [List.count_append]
    have h1 : ((orchestrationEvents route hasPfd).take k).count StreamStage.final_answer ≤ 1 :=
      le_trans (List.Sublist.count_le (List.take_sublist k _) _)
        (le_of_eq (count_final_orchestrationEvents route hasPfd))
    have h2 : ([StreamStage.error] : List StreamStage).count StreamStage.final_answer = 0 := by
      decide
    omega

theorem run_graph_events_error_last (route : List Char) (hasPfd : Bool)
    (genFail : Option Nat) :
    StreamStage.error ∈ run_graph_events route hasPfd genFail →
    ∃ pre, run_graph_events route hasPfd genFail = pre ++ [StreamStage.error] ∧
      StreamStage.error ∉ pre := by
  unfold run_graph_events
  match genFail with
  | none => intro hmem; exact absurd hmem (error_not_mem_orchestrationEvents route hasPfd)
  | some k =>
    intro _
    exact ⟨(orchestrationEvents route hasPfd).take k, rfl,
      fun hmem => error_not_mem_orchestrationEvents route hasPfd (List.mem_of_mem_take hmem)⟩

theorem error_not_mem_take_run_graph_events (route : List Char) (hasPfd : Bool)
    (genFail : Option Nat) (j : Nat)
    (hj : j < (run_graph_events route hasPfd genFail).length) :
    StreamStage.error ∉ (run_graph_events route hasPfd genFail).take j := by
  cases genFail with
  | none =>
    exact fun h => error_not_mem_orchestrationEvents route hasPfd (List.mem_of_mem_take h)
  | some k =>
    simp only [run_graph_events] at hj ⊢
    intro h
    have hlen : j ≤ ((orchestrationEvents route hasPfd).take k).length := by
      rw [List.length_append] at hj
      simp only [List.length_singleton] at hj
      omega
    rw [List.take_append_of_le_length hlen] at h
    exact error_not_mem_orchestrationEvents route hasPfd
      (List.mem_of_mem_take (List.mem_of_mem_take h))

/-- C7: every streamed request emits at most one `final_answer` event, and
when an `error` event occurs it is the last stage event: the stream ends
`error` then `[DONE]`, with no `error` (hence no stage event after an
`error`) earlier. -/
theorem c7_stream_event_discipline (route : List Char) (hasPfd : Bool)
    (genFail wrapFail : Option Nat) :
    (stream_response_lines route hasPfd genFail wrapFail).count StreamStage.final_answer ≤ 1 ∧
    (StreamStage.error ∈ stream_response_lines route hasPfd genFail wrapFail →
      ∃ pre, stream_response_lines route hasPfd genFail wrapFail =
        pre ++ [StreamStage.error, StreamStage.done] ∧ StreamStage.error ∉ pre) := by
  have hdone : ([StreamStage.done] : List StreamStage).count StreamStage.final_answer = 0 := by
    decide
  cases wrapFail with
  | none =>
    simp only [stream_response_lines]
    constructor
    · rw [List.count_append]
      have h1 := count_final_run_graph_events route hasPfd genFail
      omega
    · intro hmem
      have hR : StreamStage.error ∈ run_graph_events route hasPfd genFail := by
        rcases List.mem_append.mp hmem with h | h
        · exact h
        · exact absurd h (by decide)
      rcases run_graph_events_error_last route hasPfd genFail hR with ⟨pre, heq, hpre⟩
      refine ⟨pre, ?_, hpre⟩
      rw [heq, List.append_assoc]
      rfl
  | some j =>
    simp only [stream_response_lines]
    by_cases hj : j < (run_graph_events route hasPfd genFail).length
    · rw [if_pos hj]
      constructor
      · rw [List.count_append]
        have h1 : ((run_graph_events route hasPfd genFail).take j).count
            StreamStage.final_answer ≤ 1 :=
          le_trans (List.Sublist.count_le (List.take_sublist j _) _)
            (count_final_run_graph_events route hasPfd genFail)
        have h2 : ([StreamStage.error, StreamStage.done] : List StreamStage).count
            StreamStage.final_answer = 0 := by decide
        omega
      · intro _
        exact ⟨(run_graph_events route hasPfd genFail).take j, rfl,
          error_not_mem_take_run_graph_events route hasPfd genFail j hj⟩
    · rw [if_neg hj]
      constructor
      · rw [List.count_append]
        have h1 := count_final_run_graph_events route hasPfd genFail
        omega
      · intro hmem
        have hR : StreamStage.error ∈ run_graph_events route hasPfd genFail := by
          rcases List.mem_append.mp hmem with h | h
          · exact h
          · exact absurd h (by decide)
        rcases run_graph_events_error_last route hasPfd genFail hR with ⟨pre, heq, hpre⟩
        refine ⟨pre, ?_, hpre⟩
        rw [heq, List.append_assoc]
        rfl

/-- Witness for C7 at a mid-generation failure on the SQL route: the error
event closes the stream right before `[DONE]`. -/
theorem c7_stream_event_discipline_witness :
    StreamStage.error ∈ stream_response_lines sqlAgentKey false (some 1) none ∧
    (stream_response_lines sqlAgentKey false (some 1) none).count StreamStage.final_answer ≤ 1 ∧
    (∃ pre, stream_response_lines sqlAgentKey false (some 1) none =
      pre ++ [StreamStage.error, StreamStage.done] ∧ StreamStage.error ∉ pre) :=
  ⟨by decide, (c7_stream_event_discipline sqlAgentKey false (some 1) none).1,
    (c7_stream_event_discipline sqlAgentKey false (some 1) none).2 (by decide)⟩
